import Mathlib

/-!
Non-negativity checker of `src/arith/non_negative.h`.

A shallow embedding of `tvm::arith::NonNegativeChecker::Impl` and the proofs of
its specification.

* `PrimExpr` is the expression DAG.  A TVM `PrimExpr` is a reference to an
  immutable heap object, and the checker keys its map by the address of that
  object (`ObjectPtrHash`, `ObjectPtrEqual`).  Every node of the embedding
  therefore carries the address `ptr` of its object; a shared child is the same
  subterm, with the same address, under several parents.  `WellFormed` says
  that an address denotes one object.
* `Cache` is `non_negative_map_`, passed explicitly through `VisitExpr`,
  `MustNonNegative` and `Check`.
* `VisitExprT` and `CheckT` are the same functions returning, next to the map,
  the list of the writes and lookups they perform; `VisitExprT_fst` and
  `CheckT_fst` show that they compute the same map and result.
* `VisitExprD` and `CheckD` are the same functions on a call stack that admits
  a given number of nested `VisitExpr` calls, with the stack overflow of the
  recursion as their failing outcome.
-/

namespace NonNegative

/-! ## Data model -/

/-- An IEEE-754 binary64 value, the payload of a `FloatImmNode`, given by its
three bit fields. -/
structure Float64 where
  sign : Bool
  exponent : Nat
  mantissa : Nat
  deriving DecidableEq, Repr

/-- The C++ comparison `value >= 0` on a double: false on a NaN (exponent all
ones, mantissa not zero), true on both zeros and on every value with a clear
sign bit, false on the other values. -/
def Float64.geZero (x : Float64) : Bool :=
  if x.exponent = 2047 ∧ x.mantissa ≠ 0 then false
  else if x.exponent = 0 ∧ x.mantissa = 0 then true
  else !x.sign

/-- The expression nodes the checker meets.  The first field of every node is
the address of the object.  `OtherNode` is a node of any kind that
`NonNegativeChecker::Impl` has no `VisitExpr_` overload for (a cast, a
comparison, a call, a select, ...), with its operands. -/
inductive PrimExpr where
  | VarNode (ptr : Nat) (name_hint : String)
  | SizeVarNode (ptr : Nat) (name_hint : String)
  | IntImmNode (ptr : Nat) (value : Int)
  | FloatImmNode (ptr : Nat) (value : Float64)
  | AddNode (ptr : Nat) (a b : PrimExpr)
  | SubNode (ptr : Nat) (a b : PrimExpr)
  | MulNode (ptr : Nat) (a b : PrimExpr)
  | DivNode (ptr : Nat) (a b : PrimExpr)
  | ModNode (ptr : Nat) (a b : PrimExpr)
  | FloorDivNode (ptr : Nat) (a b : PrimExpr)
  | FloorModNode (ptr : Nat) (a b : PrimExpr)
  | MinNode (ptr : Nat) (a b : PrimExpr)
  | MaxNode (ptr : Nat) (a b : PrimExpr)
  | AndNode (ptr : Nat) (a b : PrimExpr)
  | OrNode (ptr : Nat) (a b : PrimExpr)
  | OtherNode (ptr : Nat) (operands : List PrimExpr)
  deriving Repr

/-- The address of the object a reference points to: the key of
`ObjectPtrHash` and `ObjectPtrEqual`. -/
def PrimExpr.ptr : PrimExpr → Nat
  | .VarNode p _ => p
  | .SizeVarNode p _ => p
  | .IntImmNode p _ => p
  | .FloatImmNode p _ => p
  | .AddNode p _ _ => p
  | .SubNode p _ _ => p
  | .MulNode p _ _ => p
  | .DivNode p _ _ => p
  | .ModNode p _ _ => p
  | .FloorDivNode p _ _ => p
  | .FloorModNode p _ _ => p
  | .MinNode p _ _ => p
  | .MaxNode p _ _ => p
  | .AndNode p _ _ => p
  | .OrNode p _ _ => p
  | .OtherNode p _ => p

/-- Whether the checker has a `VisitExpr_` overload for the kind of the node. -/
def PrimExpr.recognized : PrimExpr → Bool
  | .OtherNode _ _ => false
  | _ => true

mutual
/-- Every node of the DAG below and including `e`, operands of unrecognized
nodes included. -/
def PrimExpr.nodes : PrimExpr → List PrimExpr
  | .VarNode p n => [.VarNode p n]
  | .SizeVarNode p n => [.SizeVarNode p n]
  | .IntImmNode p v => [.IntImmNode p v]
  | .FloatImmNode p v => [.FloatImmNode p v]
  | .AddNode p a b => .AddNode p a b :: (a.nodes ++ b.nodes)
  | .SubNode p a b => .SubNode p a b :: (a.nodes ++ b.nodes)
  | .MulNode p a b => .MulNode p a b :: (a.nodes ++ b.nodes)
  | .DivNode p a b => .DivNode p a b :: (a.nodes ++ b.nodes)
  | .ModNode p a b => .ModNode p a b :: (a.nodes ++ b.nodes)
  | .FloorDivNode p a b => .FloorDivNode p a b :: (a.nodes ++ b.nodes)
  | .FloorModNode p a b => .FloorModNode p a b :: (a.nodes ++ b.nodes)
  | .MinNode p a b => .MinNode p a b :: (a.nodes ++ b.nodes)
  | .MaxNode p a b => .MaxNode p a b :: (a.nodes ++ b.nodes)
  | .AndNode p a b => .AndNode p a b :: (a.nodes ++ b.nodes)
  | .OrNode p a b => .OrNode p a b :: (a.nodes ++ b.nodes)
  | .OtherNode p es => .OtherNode p es :: nodesList es
/-- The nodes of a list of operands. -/
def nodesList : List PrimExpr → List PrimExpr
  | [] => []
  | e :: es => e.nodes ++ nodesList es
end

mutual
/-- Structural equality of two nodes, address included, as a boolean. -/
def PrimExpr.same : PrimExpr → PrimExpr → Bool
  | .VarNode p n, e => match e with
    | .VarNode q k => p == q && n == k
    | _ => false
  | .SizeVarNode p n, e => match e with
    | .SizeVarNode q k => p == q && n == k
    | _ => false
  | .IntImmNode p v, e => match e with
    | .IntImmNode q w => p == q && v == w
    | _ => false
  | .FloatImmNode p v, e => match e with
    | .FloatImmNode q w => p == q && v == w
    | _ => false
  | .AddNode p a b, e => match e with
    | .AddNode q c d => p == q && (a.same c && b.same d)
    | _ => false
  | .SubNode p a b, e => match e with
    | .SubNode q c d => p == q && (a.same c && b.same d)
    | _ => false
  | .MulNode p a b, e => match e with
    | .MulNode q c d => p == q && (a.same c && b.same d)
    | _ => false
  | .DivNode p a b, e => match e with
    | .DivNode q c d => p == q && (a.same c && b.same d)
    | _ => false
  | .ModNode p a b, e => match e with
    | .ModNode q c d => p == q && (a.same c && b.same d)
    | _ => false
  | .FloorDivNode p a b, e => match e with
    | .FloorDivNode q c d => p == q && (a.same c && b.same d)
    | _ => false
  | .FloorModNode p a b, e => match e with
    | .FloorModNode q c d => p == q && (a.same c && b.same d)
    | _ => false
  | .MinNode p a b, e => match e with
    | .MinNode q c d => p == q && (a.same c && b.same d)
    | _ => false
  | .MaxNode p a b, e => match e with
    | .MaxNode q c d => p == q && (a.same c && b.same d)
    | _ => false
  | .AndNode p a b, e => match e with
    | .AndNode q c d => p == q && (a.same c && b.same d)
    | _ => false
  | .OrNode p a b, e => match e with
    | .OrNode q c d => p == q && (a.same c && b.same d)
    | _ => false
  | .OtherNode p es, e => match e with
    | .OtherNode q fs => p == q && sameList es fs
    | _ => false
/-- Structural equality of two operand lists. -/
def sameList : List PrimExpr → List PrimExpr → Bool
  | [], fs => fs.isEmpty
  | e :: es, l => match l with
    | f :: fs => e.same f && sameList es fs
    | [] => false
end

/-- An address denotes one object: two nodes of the DAG that have the same
address are the same node.  Every expression the C++ program can build
satisfies this. -/
def WellFormed (e : PrimExpr) : Prop :=
  ∀ s ∈ e.nodes, ∀ t ∈ e.nodes, s.ptr = t.ptr → s = t

/-! ## The verdict map -/

/-- The member `non_negative_map_`: an association from addresses to verdicts,
with at most one entry for an address. -/
abbrev Cache := List (Nat × Bool)

/-- The call `non_negative_map_.clear()`. -/
def Cache.clear (_ : Cache) : Cache := []

/-- The call `non_negative_map_.count(e)`: 1 when the key has an entry, 0
otherwise. -/
def Cache.count (m : Cache) (k : Nat) : Nat :=
  if (m.lookup k).isSome then 1 else 0

/-- The expression `non_negative_map_[e]` read as a value: the recorded
verdict, and, as `operator[]` does, a new value-initialised entry (`false`)
when the key has none. -/
def Cache.index (m : Cache) (k : Nat) : Bool × Cache :=
  match m.lookup k with
  | some v => (v, m)
  | none => (false, (k, false) :: m)

/-- The statement `non_negative_map_[e] = v`: the entry of the key is created
or overwritten. -/
def Cache.assign (m : Cache) (k : Nat) (v : Bool) : Cache :=
  (k, v) :: m.filter (fun p => p.1 != k)

/-! ## The checker -/

/-- `MustNonNegative` (non_negative.h, lines 109-114):
`if (map.count(e) && map[e]) return true; return false;`.
The `&&` of C++ evaluates `map[e]` only when `count(e)` is not zero. -/
def MustNonNegative (e : PrimExpr) (m : Cache) : Bool × Cache :=
  if m.count e.ptr ≠ 0 then
    let r := m.index e.ptr
    if r.1 then (true, r.2) else (false, r.2)
  else (false, m)

/-- The right-hand side `MustNonNegative(op->a) && MustNonNegative(op->b)` of
lines 63, 70, 74, 82, 90 and 94; the second call is made only when the first
returns true. -/
def bothNonNegative (a b : PrimExpr) (m : Cache) : Bool × Cache :=
  let ra := MustNonNegative a m
  if ra.1 then MustNonNegative b ra.2 else (false, ra.2)

mutual
/-- The visitor: `ExprVisitor::VisitExpr` dispatches on the kind of the node to
the `VisitExpr_` overloads of lines 55-107, one arm each.

Modelled from the spec: the base class `ExprVisitor` (tvm/tir/expr_functor.h)
is not among the sources.  Its `VisitExpr` is the dispatch on the node kind;
its `VisitExpr_` for a binary node, called first by the overloads of the
descending kinds, visits `op->a` and then `op->b` (the spec: post-order
traversal, the rule reads the verdicts of both operands after they are
computed).  For a node of an unrecognized kind nothing is recorded; the spec's
rule table says its operands are not visited, while the base class of TVM
visits them: `descend` chooses (`false`: the spec's table, `true`: the operands
are visited in order), and the theorems hold for both. -/
def VisitExpr (descend : Bool) : PrimExpr → Cache → Cache
  | .VarNode p _, m => m.assign p false
  | .SizeVarNode p _, m => m.assign p true
  | .AddNode p a b, m =>
      let r := bothNonNegative a b (VisitExpr descend b (VisitExpr descend a m))
      r.2.assign p r.1
  | .SubNode p _ _, m => m.assign p false
  | .MulNode p a b, m =>
      let r := bothNonNegative a b (VisitExpr descend b (VisitExpr descend a m))
      r.2.assign p r.1
  | .DivNode p a b, m =>
      let r := bothNonNegative a b (VisitExpr descend b (VisitExpr descend a m))
      r.2.assign p r.1
  | .ModNode p a b, m =>
      let r := MustNonNegative b (VisitExpr descend b (VisitExpr descend a m))
      r.2.assign p r.1
  | .FloorDivNode p a b, m =>
      let r := bothNonNegative a b (VisitExpr descend b (VisitExpr descend a m))
      r.2.assign p r.1
  | .FloorModNode p a b, m =>
      let r := MustNonNegative b (VisitExpr descend b (VisitExpr descend a m))
      r.2.assign p r.1
  | .MinNode p a b, m =>
      let r := bothNonNegative a b (VisitExpr descend b (VisitExpr descend a m))
      r.2.assign p r.1
  | .MaxNode p a b, m =>
      let r := bothNonNegative a b (VisitExpr descend b (VisitExpr descend a m))
      r.2.assign p r.1
  | .AndNode p _ _, m => m.assign p true
  | .OrNode p _ _, m => m.assign p true
  | .IntImmNode p value, m => m.assign p (decide (value ≥ 0))
  | .FloatImmNode p value, m => m.assign p value.geZero
  | .OtherNode _ es, m => if descend then VisitExprs descend es m else m
/-- The operands of an unrecognized node visited one after the other. -/
def VisitExprs (descend : Bool) : List PrimExpr → Cache → Cache
  | [], m => m
  | e :: es, m => VisitExprs descend es (VisitExpr descend e m)
end

/-- `Check` (lines 49-53): clear the map, visit the expression, look the
verdict of the root up.  The map held by the checker on entry is `m`; the map
it holds on return is the second component. -/
def Check (descend : Bool) (expr : PrimExpr) (m : Cache) : Bool × Cache :=
  MustNonNegative expr (VisitExpr descend expr m.clear)

/-! ## The rule table and the value of an expression -/

/-- The rule table of the specification (section 4.1), as a function of the
node alone: the verdict of a leaf is fixed by its kind and value, the verdict
of `Add`, `Mul`, `Div`, `FloorDiv`, `Min` and `Max` is the conjunction of the
verdicts of both operands, that of `Mod` and `FloorMod` is the verdict of the
divisor, `Sub` is never non-negative, `And` and `Or` always are, and a node of
an unrecognized kind has no verdict, which reads as `false`. -/
def nn : PrimExpr → Bool
  | .VarNode _ _ => false
  | .SizeVarNode _ _ => true
  | .IntImmNode _ v => decide (v ≥ 0)
  | .FloatImmNode _ v => v.geZero
  | .AddNode _ a b => nn a && nn b
  | .SubNode _ _ _ => false
  | .MulNode _ a b => nn a && nn b
  | .DivNode _ a b => nn a && nn b
  | .ModNode _ _ b => nn b
  | .FloorDivNode _ a b => nn a && nn b
  | .FloorModNode _ _ b => nn b
  | .MinNode _ a b => nn a && nn b
  | .MaxNode _ a b => nn a && nn b
  | .AndNode _ _ _ => true
  | .OrNode _ _ _ => true
  | .OtherNode _ _ => false

/-- The value of a boolean used as an integer. -/
def boolToInt (c : Bool) : Int := if c then 1 else 0

/-- Modelled from the spec: the value of an integer expression under an
assignment `σ` of integers to the variable objects (the semantics of the
operators is not among the sources).  `Div` and `Mod` are the truncating
division and remainder, `FloorDiv` and `FloorMod` the flooring ones, `And` and
`Or` yield 0 or 1.  The value is undefined (`none`) when a divisor is 0, and on
float constants and unrecognized kinds. -/
def eval (σ : Nat → Int) : PrimExpr → Option Int
  | .VarNode p _ => some (σ p)
  | .SizeVarNode p _ => some (σ p)
  | .IntImmNode _ v => some v
  | .FloatImmNode _ _ => none
  | .AddNode _ a b => (eval σ a).bind fun x => (eval σ b).bind fun y => some (x + y)
  | .SubNode _ a b => (eval σ a).bind fun x => (eval σ b).bind fun y => some (x - y)
  | .MulNode _ a b => (eval σ a).bind fun x => (eval σ b).bind fun y => some (x * y)
  | .DivNode _ a b => (eval σ a).bind fun x => (eval σ b).bind fun y =>
      if y = 0 then none else some (Int.tdiv x y)
  | .ModNode _ a b => (eval σ a).bind fun x => (eval σ b).bind fun y =>
      if y = 0 then none else some (Int.tmod x y)
  | .FloorDivNode _ a b => (eval σ a).bind fun x => (eval σ b).bind fun y =>
      if y = 0 then none else some (Int.fdiv x y)
  | .FloorModNode _ a b => (eval σ a).bind fun x => (eval σ b).bind fun y =>
      if y = 0 then none else some (Int.fmod x y)
  | .MinNode _ a b => (eval σ a).bind fun x => (eval σ b).bind fun y => some (min x y)
  | .MaxNode _ a b => (eval σ a).bind fun x => (eval σ b).bind fun y => some (max x y)
  | .AndNode _ a b => (eval σ a).bind fun x => (eval σ b).bind fun y =>
      some (boolToInt (decide (x ≠ 0) && decide (y ≠ 0)))
  | .OrNode _ a b => (eval σ a).bind fun x => (eval σ b).bind fun y =>
      some (boolToInt (decide (x ≠ 0) || decide (y ≠ 0)))
  | .OtherNode _ _ => none

/-- Whether the node is a `SizeVarNode`. -/
def PrimExpr.isSizeVar : PrimExpr → Bool
  | .SizeVarNode _ _ => true
  | _ => false

/-- The assignment gives every size variable of the expression a value that is
not negative. -/
def SizeVarsNonNegative (σ : Nat → Int) (e : PrimExpr) : Prop :=
  ∀ s ∈ e.nodes, s.isSizeVar = true → 0 ≤ σ s.ptr

/-! ## Fragments of the expression language -/

/-- Whether the node is a leaf of the integer language: a variable, a size
variable or an integer constant. -/
def PrimExpr.isLeaf : PrimExpr → Bool
  | .VarNode _ _ => true
  | .SizeVarNode _ _ => true
  | .IntImmNode _ _ => true
  | _ => false

/-- Whether the node is a size variable or an integer constant of value at
least 0. -/
def PrimExpr.isSizeVarOrNonNegativeInt : PrimExpr → Bool
  | .SizeVarNode _ _ => true
  | .IntImmNode _ v => decide (v ≥ 0)
  | _ => false

/-- The conjunctive fragment: expressions built with `Add`, `Mul`, `Div`,
`FloorDiv`, `Min` and `Max` only, over variables, size variables and integer
constants. -/
def conjunctive : PrimExpr → Bool
  | .VarNode _ _ => true
  | .SizeVarNode _ _ => true
  | .IntImmNode _ _ => true
  | .AddNode _ a b => conjunctive a && conjunctive b
  | .MulNode _ a b => conjunctive a && conjunctive b
  | .DivNode _ a b => conjunctive a && conjunctive b
  | .FloorDivNode _ a b => conjunctive a && conjunctive b
  | .MinNode _ a b => conjunctive a && conjunctive b
  | .MaxNode _ a b => conjunctive a && conjunctive b
  | _ => false

/-- The six operators whose rule is the conjunction of both operands'
verdicts. -/
inductive ConjOp where
  | Add | Mul | Div | FloorDiv | Min | Max
  deriving DecidableEq, Repr

/-- The node of the given conjunctive operator at address `p` with operands
`a` and `b`. -/
def ConjOp.node (op : ConjOp) (p : Nat) (a b : PrimExpr) : PrimExpr :=
  match op with
  | .Add => .AddNode p a b
  | .Mul => .MulNode p a b
  | .Div => .DivNode p a b
  | .FloorDiv => .FloorDivNode p a b
  | .Min => .MinNode p a b
  | .Max => .MaxNode p a b

/-! ## Invariants of the traversal -/

/-- Every verdict the map records for a node of the DAG `root` is the verdict
of the rule table for that node. -/
def Consistent (root : PrimExpr) (m : Cache) : Prop :=
  ∀ s ∈ root.nodes, ∀ v, List.lookup s.ptr m = some v → v = nn s

/-- The map `m2` is consistent and has an entry wherever `m1` has one. -/
def Grows (root : PrimExpr) (m1 m2 : Cache) : Prop :=
  Consistent root m2 ∧ ∀ k, (List.lookup k m1).isSome → (List.lookup k m2).isSome

/-! ## The map operations of a run -/

/-- One operation on `non_negative_map_`: the statement `map[k] = v` of a
`VisitExpr_` overload, or a call of `MustNonNegative` on the node at address
`k` with its result. -/
inductive Event where
  | write (k : Nat) (v : Bool)
  | read (k : Nat) (v : Bool)
  deriving DecidableEq, Repr

/-- The address an operation is about. -/
def Event.key : Event → Nat
  | .write k _ => k
  | .read k _ => k

/-- The verdict an operation stores or returns. -/
def Event.value : Event → Bool
  | .write _ v => v
  | .read _ v => v

/-- The writes among the operations, in order, as pairs of address and
verdict. -/
def writes : List Event → List (Nat × Bool)
  | [] => []
  | .write k v :: l => (k, v) :: writes l
  | .read _ _ :: l => writes l

/-- `MustNonNegative` together with the operation it performs. -/
def MustNonNegativeT (e : PrimExpr) (m : Cache) : (Bool × Cache) × List Event :=
  let r := MustNonNegative e m
  (r, [.read e.ptr r.1])

/-- `MustNonNegative(op->a) && MustNonNegative(op->b)` together with the
operations it performs: the second call is made only when the first returns
true. -/
def bothNonNegativeT (a b : PrimExpr) (m : Cache) : (Bool × Cache) × List Event :=
  let ra := MustNonNegative a m
  if ra.1 then
    let rb := MustNonNegative b ra.2
    (rb, [.read a.ptr ra.1, .read b.ptr rb.1])
  else ((false, ra.2), [.read a.ptr ra.1])

mutual
/-- The visitor `VisitExpr` with the list of the map operations it performs, in
the order of execution: the same arms, each returning the map and the
operations. -/
def VisitExprT (descend : Bool) : PrimExpr → Cache → Cache × List Event
  | .VarNode p _, m => (m.assign p false, [.write p false])
  | .SizeVarNode p _, m => (m.assign p true, [.write p true])
  | .AddNode p a b, m =>
      let s1 := VisitExprT descend a m
      let s2 := VisitExprT descend b s1.1
      let r := bothNonNegativeT a b s2.1
      (r.1.2.assign p r.1.1, s1.2 ++ s2.2 ++ r.2 ++ [.write p r.1.1])
  | .SubNode p _ _, m => (m.assign p false, [.write p false])
  | .MulNode p a b, m =>
      let s1 := VisitExprT descend a m
      let s2 := VisitExprT descend b s1.1
      let r := bothNonNegativeT a b s2.1
      (r.1.2.assign p r.1.1, s1.2 ++ s2.2 ++ r.2 ++ [.write p r.1.1])
  | .DivNode p a b, m =>
      let s1 := VisitExprT descend a m
      let s2 := VisitExprT descend b s1.1
      let r := bothNonNegativeT a b s2.1
      (r.1.2.assign p r.1.1, s1.2 ++ s2.2 ++ r.2 ++ [.write p r.1.1])
  | .ModNode p a b, m =>
      let s1 := VisitExprT descend a m
      let s2 := VisitExprT descend b s1.1
      let r := MustNonNegativeT b s2.1
      (r.1.2.assign p r.1.1, s1.2 ++ s2.2 ++ r.2 ++ [.write p r.1.1])
  | .FloorDivNode p a b, m =>
      let s1 := VisitExprT descend a m
      let s2 := VisitExprT descend b s1.1
      let r := bothNonNegativeT a b s2.1
      (r.1.2.assign p r.1.1, s1.2 ++ s2.2 ++ r.2 ++ [.write p r.1.1])
  | .FloorModNode p a b, m =>
      let s1 := VisitExprT descend a m
      let s2 := VisitExprT descend b s1.1
      let r := MustNonNegativeT b s2.1
      (r.1.2.assign p r.1.1, s1.2 ++ s2.2 ++ r.2 ++ [.write p r.1.1])
  | .MinNode p a b, m =>
      let s1 := VisitExprT descend a m
      let s2 := VisitExprT descend b s1.1
      let r := bothNonNegativeT a b s2.1
      (r.1.2.assign p r.1.1, s1.2 ++ s2.2 ++ r.2 ++ [.write p r.1.1])
  | .MaxNode p a b, m =>
      let s1 := VisitExprT descend a m
      let s2 := VisitExprT descend b s1.1
      let r := bothNonNegativeT a b s2.1
      (r.1.2.assign p r.1.1, s1.2 ++ s2.2 ++ r.2 ++ [.write p r.1.1])
  | .AndNode p _ _, m => (m.assign p true, [.write p true])
  | .OrNode p _ _, m => (m.assign p true, [.write p true])
  | .IntImmNode p value, m =>
      (m.assign p (decide (value ≥ 0)), [.write p (decide (value ≥ 0))])
  | .FloatImmNode p value, m => (m.assign p value.geZero, [.write p value.geZero])
  | .OtherNode _ es, m => if descend then VisitExprsT descend es m else (m, [])
/-- The operands of an unrecognized node visited one after the other, with the
operations performed. -/
def VisitExprsT (descend : Bool) : List PrimExpr → Cache → Cache × List Event
  | [], m => (m, [])
  | e :: es, m =>
      let s1 := VisitExprT descend e m
      let s2 := VisitExprsT descend es s1.1
      (s2.1, s1.2 ++ s2.2)
end

/-- `Check` with the list of the map operations of the call, in the order of
execution (the final one is the lookup of the root's verdict). -/
def CheckT (descend : Bool) (expr : PrimExpr) (m : Cache) : (Bool × Cache) × List Event :=
  let s := VisitExprT descend expr m.clear
  let r := MustNonNegativeT expr s.1
  (r.1, s.2 ++ r.2)

mutual
/-- The visits of the traversal that record a verdict, in the order of their
writes: the node itself for the kinds that do not descend, the visits of both
operands followed by the node for the kinds that do, and for an unrecognized
node the visits of its operands when the base visitor descends into them. -/
def PrimExpr.visits (descend : Bool) : PrimExpr → List PrimExpr
  | .VarNode p x => [.VarNode p x]
  | .SizeVarNode p x => [.SizeVarNode p x]
  | .IntImmNode p x => [.IntImmNode p x]
  | .FloatImmNode p x => [.FloatImmNode p x]
  | .AddNode p a b => a.visits descend ++ b.visits descend ++ [.AddNode p a b]
  | .SubNode p a b => [.SubNode p a b]
  | .MulNode p a b => a.visits descend ++ b.visits descend ++ [.MulNode p a b]
  | .DivNode p a b => a.visits descend ++ b.visits descend ++ [.DivNode p a b]
  | .ModNode p a b => a.visits descend ++ b.visits descend ++ [.ModNode p a b]
  | .FloorDivNode p a b => a.visits descend ++ b.visits descend ++ [.FloorDivNode p a b]
  | .FloorModNode p a b => a.visits descend ++ b.visits descend ++ [.FloorModNode p a b]
  | .MinNode p a b => a.visits descend ++ b.visits descend ++ [.MinNode p a b]
  | .MaxNode p a b => a.visits descend ++ b.visits descend ++ [.MaxNode p a b]
  | .AndNode p a b => [.AndNode p a b]
  | .OrNode p a b => [.OrNode p a b]
  | .OtherNode _ es => if descend then visitsList descend es else []
/-- The recording visits below a list of operands. -/
def visitsList (descend : Bool) : List PrimExpr → List PrimExpr
  | [] => []
  | e :: es => e.visits descend ++ visitsList descend es
end

/-! ## Relations between expressions -/

mutual
/-- The tree a DAG unfolds to: the expression with every address erased (set
to 0), so that shared and separately constructed equal sub-expressions are the
same. -/
def PrimExpr.shape : PrimExpr → PrimExpr
  | .VarNode _ x => .VarNode 0 x
  | .SizeVarNode _ x => .SizeVarNode 0 x
  | .IntImmNode _ x => .IntImmNode 0 x
  | .FloatImmNode _ x => .FloatImmNode 0 x
  | .AddNode _ a b => .AddNode 0 a.shape b.shape
  | .SubNode _ a b => .SubNode 0 a.shape b.shape
  | .MulNode _ a b => .MulNode 0 a.shape b.shape
  | .DivNode _ a b => .DivNode 0 a.shape b.shape
  | .ModNode _ a b => .ModNode 0 a.shape b.shape
  | .FloorDivNode _ a b => .FloorDivNode 0 a.shape b.shape
  | .FloorModNode _ a b => .FloorModNode 0 a.shape b.shape
  | .MinNode _ a b => .MinNode 0 a.shape b.shape
  | .MaxNode _ a b => .MaxNode 0 a.shape b.shape
  | .AndNode _ a b => .AndNode 0 a.shape b.shape
  | .OrNode _ a b => .OrNode 0 a.shape b.shape
  | .OtherNode _ es => .OtherNode 0 (shapeList es)
/-- The trees of a list of operands. -/
def shapeList : List PrimExpr → List PrimExpr
  | [] => []
  | e :: es => e.shape :: shapeList es
end

mutual
/-- The expression contains no truncating `Mod` node. -/
def PrimExpr.modFree : PrimExpr → Bool
  | .VarNode _ _ => true
  | .SizeVarNode _ _ => true
  | .IntImmNode _ _ => true
  | .FloatImmNode _ _ => true
  | .AddNode _ a b => a.modFree && b.modFree
  | .SubNode _ a b => a.modFree && b.modFree
  | .MulNode _ a b => a.modFree && b.modFree
  | .DivNode _ a b => a.modFree && b.modFree
  | .ModNode _ _ _ => false
  | .FloorDivNode _ a b => a.modFree && b.modFree
  | .FloorModNode _ a b => a.modFree && b.modFree
  | .MinNode _ a b => a.modFree && b.modFree
  | .MaxNode _ a b => a.modFree && b.modFree
  | .AndNode _ a b => a.modFree && b.modFree
  | .OrNode _ a b => a.modFree && b.modFree
  | .OtherNode _ es => modFreeList es
/-- No operand of the list contains a truncating `Mod` node. -/
def modFreeList : List PrimExpr → Bool
  | [] => true
  | e :: es => e.modFree && modFreeList es
end

mutual
/-- The second expression is obtained from the first by replacing some `Var`
leaves by `SizeVar` leaves and some negative integer constants by
non-negative ones; everything else is the same up to the addresses of the
nodes (a replaced leaf is a new object, and so is every node above it). -/
def PrimExpr.upgradesTo : PrimExpr → PrimExpr → Bool
  | .VarNode _ n, e => match e with
    | .VarNode _ k => n == k
    | .SizeVarNode _ _ => true
    | _ => false
  | .SizeVarNode _ n, e => match e with
    | .SizeVarNode _ k => n == k
    | _ => false
  | .IntImmNode _ v, e => match e with
    | .IntImmNode _ w => v == w || (decide (v < 0) && decide (w ≥ 0))
    | _ => false
  | .FloatImmNode _ v, e => match e with
    | .FloatImmNode _ w => v == w
    | _ => false
  | .AddNode _ a b, e => match e with
    | .AddNode _ c d => a.upgradesTo c && b.upgradesTo d
    | _ => false
  | .SubNode _ a b, e => match e with
    | .SubNode _ c d => a.upgradesTo c && b.upgradesTo d
    | _ => false
  | .MulNode _ a b, e => match e with
    | .MulNode _ c d => a.upgradesTo c && b.upgradesTo d
    | _ => false
  | .DivNode _ a b, e => match e with
    | .DivNode _ c d => a.upgradesTo c && b.upgradesTo d
    | _ => false
  | .ModNode _ a b, e => match e with
    | .ModNode _ c d => a.upgradesTo c && b.upgradesTo d
    | _ => false
  | .FloorDivNode _ a b, e => match e with
    | .FloorDivNode _ c d => a.upgradesTo c && b.upgradesTo d
    | _ => false
  | .FloorModNode _ a b, e => match e with
    | .FloorModNode _ c d => a.upgradesTo c && b.upgradesTo d
    | _ => false
  | .MinNode _ a b, e => match e with
    | .MinNode _ c d => a.upgradesTo c && b.upgradesTo d
    | _ => false
  | .MaxNode _ a b, e => match e with
    | .MaxNode _ c d => a.upgradesTo c && b.upgradesTo d
    | _ => false
  | .AndNode _ a b, e => match e with
    | .AndNode _ c d => a.upgradesTo c && b.upgradesTo d
    | _ => false
  | .OrNode _ a b, e => match e with
    | .OrNode _ c d => a.upgradesTo c && b.upgradesTo d
    | _ => false
  | .OtherNode _ es, e => match e with
    | .OtherNode _ fs => upgradesToList es fs
    | _ => false
/-- The operand lists are of the same length and related pairwise. -/
def upgradesToList : List PrimExpr → List PrimExpr → Bool
  | [], l => l.isEmpty
  | e :: es, l => match l with
    | f :: fs => e.upgradesTo f && upgradesToList es fs
    | [] => false
end

/-! ## The recursion on a bounded call stack -/

mutual
/-- The visitor `VisitExpr` run on a call stack that admits `stack` nested
calls of `VisitExpr`: the same arms, in the same order.  The C++ visitor
recurses once for every level of the expression it descends into; a call made
when no frame is left is the stack overflow of that recursion, the result
`none`.  The frames of `MustNonNegative` and of the map operations, which
return before the next visit, are not counted. -/
def VisitExprD (descend : Bool) : PrimExpr → Nat → Cache → Option Cache
  | .VarNode p _, stack, m => if stack = 0 then none else some (m.assign p false)
  | .SizeVarNode p _, stack, m => if stack = 0 then none else some (m.assign p true)
  | .AddNode p a b, stack, m =>
      if stack = 0 then none else
        (VisitExprD descend a (stack - 1) m).bind fun m1 =>
          (VisitExprD descend b (stack - 1) m1).bind fun m2 =>
            let r := bothNonNegative a b m2
            some (r.2.assign p r.1)
  | .SubNode p _ _, stack, m => if stack = 0 then none else some (m.assign p false)
  | .MulNode p a b, stack, m =>
      if stack = 0 then none else
        (VisitExprD descend a (stack - 1) m).bind fun m1 =>
          (VisitExprD descend b (stack - 1) m1).bind fun m2 =>
            let r := bothNonNegative a b m2
            some (r.2.assign p r.1)
  | .DivNode p a b, stack, m =>
      if stack = 0 then none else
        (VisitExprD descend a (stack - 1) m).bind fun m1 =>
          (VisitExprD descend b (stack - 1) m1).bind fun m2 =>
            let r := bothNonNegative a b m2
            some (r.2.assign p r.1)
  | .ModNode p a b, stack, m =>
      if stack = 0 then none else
        (VisitExprD descend a (stack - 1) m).bind fun m1 =>
          (VisitExprD descend b (stack - 1) m1).bind fun m2 =>
            let r := MustNonNegative b m2
            some (r.2.assign p r.1)
  | .FloorDivNode p a b, stack, m =>
      if stack = 0 then none else
        (VisitExprD descend a (stack - 1) m).bind fun m1 =>
          (VisitExprD descend b (stack - 1) m1).bind fun m2 =>
            let r := bothNonNegative a b m2
            some (r.2.assign p r.1)
  | .FloorModNode p a b, stack, m =>
      if stack = 0 then none else
        (VisitExprD descend a (stack - 1) m).bind fun m1 =>
          (VisitExprD descend b (stack - 1) m1).bind fun m2 =>
            let r := MustNonNegative b m2
            some (r.2.assign p r.1)
  | .MinNode p a b, stack, m =>
      if stack = 0 then none else
        (VisitExprD descend a (stack - 1) m).bind fun m1 =>
          (VisitExprD descend b (stack - 1) m1).bind fun m2 =>
            let r := bothNonNegative a b m2
            some (r.2.assign p r.1)
  | .MaxNode p a b, stack, m =>
      if stack = 0 then none else
        (VisitExprD descend a (stack - 1) m).bind fun m1 =>
          (VisitExprD descend b (stack - 1) m1).bind fun m2 =>
            let r := bothNonNegative a b m2
            some (r.2.assign p r.1)
  | .AndNode p _ _, stack, m => if stack = 0 then none else some (m.assign p true)
  | .OrNode p _ _, stack, m => if stack = 0 then none else some (m.assign p true)
  | .IntImmNode p value, stack, m => if stack = 0 then none else some (m.assign p (decide (value ≥ 0)))
  | .FloatImmNode p value, stack, m => if stack = 0 then none else some (m.assign p value.geZero)
  | .OtherNode _ es, stack, m =>
      if stack = 0 then none
      else if descend then VisitExprsD descend es (stack - 1) m else some m
/-- The operands of an unrecognized node visited one after the other, each on
the same stack. -/
def VisitExprsD (descend : Bool) : List PrimExpr → Nat → Cache → Option Cache
  | [], _, m => some m
  | e :: es, stack, m =>
      (VisitExprD descend e stack m).bind fun m1 => VisitExprsD descend es stack m1
end

mutual
/-- The number of nested `VisitExpr` calls the traversal of the expression
makes: 1 for a leaf and for the kinds that do not descend, one more than the
deeper operand for the kinds that do. -/
def PrimExpr.depth (descend : Bool) : PrimExpr → Nat
  | .VarNode _ _ => 1
  | .SizeVarNode _ _ => 1
  | .IntImmNode _ _ => 1
  | .FloatImmNode _ _ => 1
  | .AddNode _ a b => max (a.depth descend) (b.depth descend) + 1
  | .SubNode _ _ _ => 1
  | .MulNode _ a b => max (a.depth descend) (b.depth descend) + 1
  | .DivNode _ a b => max (a.depth descend) (b.depth descend) + 1
  | .ModNode _ a b => max (a.depth descend) (b.depth descend) + 1
  | .FloorDivNode _ a b => max (a.depth descend) (b.depth descend) + 1
  | .FloorModNode _ a b => max (a.depth descend) (b.depth descend) + 1
  | .MinNode _ a b => max (a.depth descend) (b.depth descend) + 1
  | .MaxNode _ a b => max (a.depth descend) (b.depth descend) + 1
  | .AndNode _ _ _ => 1
  | .OrNode _ _ _ => 1
  | .OtherNode _ es => if descend then depthList descend es + 1 else 1
/-- The depth of the deepest operand of a list. -/
def depthList (descend : Bool) : List PrimExpr → Nat
  | [] => 0
  | e :: es => max (e.depth descend) (depthList descend es)
end

mutual
theorem PrimExpr.same_iff : ∀ (a b : PrimExpr), a.same b = true ↔ a = b
  | .VarNode p n, b => by cases b <;> simp [PrimExpr.same]
  | .SizeVarNode p n, b => by cases b <;> simp [PrimExpr.same]
  | .IntImmNode p n, b => by cases b <;> simp [PrimExpr.same]
  | .FloatImmNode p n, b => by cases b <;> simp [PrimExpr.same]
  | .AddNode p a1 a2, b => by cases b <;> simp [PrimExpr.same, PrimExpr.same_iff a1, PrimExpr.same_iff a2]
  | .SubNode p a1 a2, b => by cases b <;> simp [PrimExpr.same, PrimExpr.same_iff a1, PrimExpr.same_iff a2]
  | .MulNode p a1 a2, b => by cases b <;> simp [PrimExpr.same, PrimExpr.same_iff a1, PrimExpr.same_iff a2]
  | .DivNode p a1 a2, b => by cases b <;> simp [PrimExpr.same, PrimExpr.same_iff a1, PrimExpr.same_iff a2]
  | .ModNode p a1 a2, b => by cases b <;> simp [PrimExpr.same, PrimExpr.same_iff a1, PrimExpr.same_iff a2]
  | .FloorDivNode p a1 a2, b => by cases b <;> simp [PrimExpr.same, PrimExpr.same_iff a1, PrimExpr.same_iff a2]
  | .FloorModNode p a1 a2, b => by cases b <;> simp [PrimExpr.same, PrimExpr.same_iff a1, PrimExpr.same_iff a2]
  | .MinNode p a1 a2, b => by cases b <;> simp [PrimExpr.same, PrimExpr.same_iff a1, PrimExpr.same_iff a2]
  | .MaxNode p a1 a2, b => by cases b <;> simp [PrimExpr.same, PrimExpr.same_iff a1, PrimExpr.same_iff a2]
  | .AndNode p a1 a2, b => by cases b <;> simp [PrimExpr.same, PrimExpr.same_iff a1, PrimExpr.same_iff a2]
  | .OrNode p a1 a2, b => by cases b <;> simp [PrimExpr.same, PrimExpr.same_iff a1, PrimExpr.same_iff a2]
  | .OtherNode p es, b => by cases b <;> simp [PrimExpr.same, sameList_iff es]
theorem sameList_iff : ∀ (as bs : List PrimExpr), sameList as bs = true ↔ as = bs
  | [], bs => by cases bs <;> simp [sameList]
  | a :: as, bs => by cases bs <;> simp [sameList, PrimExpr.same_iff a, sameList_iff as]
end

instance : DecidableEq PrimExpr := fun a b =>
  decidable_of_iff (a.same b = true) (PrimExpr.same_iff a b)

instance (e : PrimExpr) : Decidable (WellFormed e) := by
  unfold WellFormed; infer_instance

instance (σ : Nat → Int) (e : PrimExpr) : Decidable (SizeVarsNonNegative σ e) := by
  unfold SizeVarsNonNegative; infer_instance

/-! ## The verdict map -/

theorem lookup_filter_ne (m : Cache) (k k' : Nat) (h : k' ≠ k) :
    List.lookup k' (m.filter (fun p => p.1 != k)) = List.lookup k' m := by
  induction m with
  | nil => rfl
  | cons x xs ih =>
    obtain ⟨a, v⟩ := x
    by_cases hak : a = k
    · subst hak
      have : (k' == a) = false := by simpa using h
      simp [List.filter_cons, List.lookup_cons, this, ih]
    · have h1 : (a != k) = true := by simpa using hak
      simp only [List.filter_cons, h1, if_true, List.lookup_cons, ih]

theorem lookup_assign (m : Cache) (k k' : Nat) (v : Bool) :
    List.lookup k' (m.assign k v) = if k' = k then some v else List.lookup k' m := by
  unfold Cache.assign
  by_cases h : k' = k
  · subst h; simp [List.lookup_cons]
  · have : (k' == k) = false := by simpa using h
    simp [List.lookup_cons, this, h, lookup_filter_ne m k k' h]

theorem MustNonNegative_eq (e : PrimExpr) (m : Cache) :
    MustNonNegative e m = (List.lookup e.ptr m == some true, m) := by
  unfold MustNonNegative Cache.count Cache.index
  cases h : List.lookup e.ptr m with
  | none => simp
  | some v => cases v <;> simp

theorem bothNonNegative_eq (a b : PrimExpr) (m : Cache) :
    bothNonNegative a b m =
      (List.lookup a.ptr m == some true && List.lookup b.ptr m == some true, m) := by
  unfold bothNonNegative
  simp only [MustNonNegative_eq]
  cases h : (List.lookup a.ptr m == some true) <;> simp

/-! ## The traversal keeps the map consistent with the rule table -/

theorem Grows.refl {root : PrimExpr} {m : Cache} (h : Consistent root m) : Grows root m m :=
  ⟨h, fun _ hk => hk⟩

theorem Grows.trans {root : PrimExpr} {m m1 m2 : Cache} (h1 : Grows root m m1)
    (h2 : Grows root m1 m2) : Grows root m m2 :=
  ⟨h2.1, fun k hk => h2.2 k (h1.2 k hk)⟩

theorem Grows.assign {root e : PrimExpr} {m : Cache} (hwf : WellFormed root)
    (he : e ∈ root.nodes) (h : Consistent root m) :
    Grows root m (m.assign e.ptr (nn e)) := by
  refine ⟨fun s hs v hv => ?_, fun k hk => ?_⟩
  · rw [lookup_assign] at hv
    by_cases hp : s.ptr = e.ptr
    · rw [if_pos hp] at hv
      rw [hwf s hs e he hp]
      exact (Option.some.inj hv).symm
    · rw [if_neg hp] at hv
      exact h s hs v hv
  · rw [lookup_assign]
    by_cases hp : k = e.ptr
    · simp [hp]
    · simpa [hp] using hk

theorem mem_nodes_self (e : PrimExpr) : e ∈ e.nodes := by
  cases e <;> simp [PrimExpr.nodes]

theorem nn_of_not_recognized {e : PrimExpr} (h : e.recognized = false) : nn e = false := by
  cases e <;> simp_all [PrimExpr.recognized, nn]

theorem read_eq {root x : PrimExpr} {m : Cache} (h : Consistent root m) (hx : x ∈ root.nodes)
    (hrec : x.recognized = true → (List.lookup x.ptr m).isSome) :
    (List.lookup x.ptr m == some true) = nn x := by
  cases hl : List.lookup x.ptr m with
  | none =>
    have : x.recognized = false := by
      cases hr : x.recognized
      · rfl
      · have := hrec hr; simp [hl] at this
    simp [nn_of_not_recognized this]
  | some v =>
    have := h x hx v hl
    subst this
    cases nn x <;> simp

theorem record_step {root e : PrimExpr} {m m' : Cache} {v : Bool} (hwf : WellFormed root)
    (he : e ∈ root.nodes) (hg : Grows root m m') (hv : v = nn e) :
    Grows root m (m'.assign e.ptr v) ∧
      (e.recognized = true → List.lookup e.ptr (m'.assign e.ptr v) = some (nn e)) := by
  subst hv
  exact ⟨hg.trans (Grows.assign hwf he hg.1), fun _ => by simp [lookup_assign]⟩

theorem operands_read {root a b : PrimExpr} {m m1 m2 : Cache}
    (ha : a ∈ root.nodes) (hb : b ∈ root.nodes)
    (h1 : Grows root m m1 ∧ (a.recognized = true → List.lookup a.ptr m1 = some (nn a)))
    (h2 : Grows root m1 m2 ∧ (b.recognized = true → List.lookup b.ptr m2 = some (nn b))) :
    Grows root m m2 ∧ (List.lookup a.ptr m2 == some true) = nn a ∧
      (List.lookup b.ptr m2 == some true) = nn b := by
  refine ⟨h1.1.trans h2.1, read_eq h2.1.1 ha fun hr => ?_, read_eq h2.1.1 hb fun hr => ?_⟩
  · exact h2.1.2 _ (by simp [h1.2 hr])
  · simp [h2.2 hr]

mutual
theorem visit_spec (d : Bool) (root : PrimExpr) (hwf : WellFormed root) :
    ∀ (e : PrimExpr) (m : Cache), (∀ s ∈ e.nodes, s ∈ root.nodes) → Consistent root m →
      Grows root m (VisitExpr d e m) ∧
        (e.recognized = true → List.lookup e.ptr (VisitExpr d e m) = some (nn e))
  | .VarNode p n, m, hs, hc =>
      record_step hwf (hs _ (mem_nodes_self _)) (Grows.refl hc) rfl
  | .SizeVarNode p n, m, hs, hc =>
      record_step hwf (hs _ (mem_nodes_self _)) (Grows.refl hc) rfl
  | .AddNode p a b, m, hs, hc => by
      have hsa : ∀ s ∈ a.nodes, s ∈ root.nodes := fun s h => hs s (by simp [PrimExpr.nodes, h])
      have hsb : ∀ s ∈ b.nodes, s ∈ root.nodes := fun s h => hs s (by simp [PrimExpr.nodes, h])
      have h1 := visit_spec d root hwf a m hsa hc
      have h2 := visit_spec d root hwf b _ hsb h1.1.1
      obtain ⟨hg, ra, rb⟩ :=
        operands_read (hsa _ (mem_nodes_self _)) (hsb _ (mem_nodes_self _)) h1 h2
      simp only [VisitExpr, bothNonNegative_eq]
      exact record_step hwf (hs _ (mem_nodes_self _)) hg (by simp [nn, ra, rb])
  | .SubNode p a b, m, hs, hc =>
      record_step hwf (hs _ (mem_nodes_self _)) (Grows.refl hc) rfl
  | .MulNode p a b, m, hs, hc => by
      have hsa : ∀ s ∈ a.nodes, s ∈ root.nodes := fun s h => hs s (by simp [PrimExpr.nodes, h])
      have hsb : ∀ s ∈ b.nodes, s ∈ root.nodes := fun s h => hs s (by simp [PrimExpr.nodes, h])
      have h1 := visit_spec d root hwf a m hsa hc
      have h2 := visit_spec d root hwf b _ hsb h1.1.1
      obtain ⟨hg, ra, rb⟩ :=
        operands_read (hsa _ (mem_nodes_self _)) (hsb _ (mem_nodes_self _)) h1 h2
      simp only [VisitExpr, bothNonNegative_eq]
      exact record_step hwf (hs _ (mem_nodes_self _)) hg (by simp [nn, ra, rb])
  | .DivNode p a b, m, hs, hc => by
      have hsa : ∀ s ∈ a.nodes, s ∈ root.nodes := fun s h => hs s (by simp [PrimExpr.nodes, h])
      have hsb : ∀ s ∈ b.nodes, s ∈ root.nodes := fun s h => hs s (by simp [PrimExpr.nodes, h])
      have h1 := visit_spec d root hwf a m hsa hc
      have h2 := visit_spec d root hwf b _ hsb h1.1.1
      obtain ⟨hg, ra, rb⟩ :=
        operands_read (hsa _ (mem_nodes_self _)) (hsb _ (mem_nodes_self _)) h1 h2
      simp only [VisitExpr, bothNonNegative_eq]
      exact record_step hwf (hs _ (mem_nodes_self _)) hg (by simp [nn, ra, rb])
  | .ModNode p a b, m, hs, hc => by
      have hsa : ∀ s ∈ a.nodes, s ∈ root.nodes := fun s h => hs s (by simp [PrimExpr.nodes, h])
      have hsb : ∀ s ∈ b.nodes, s ∈ root.nodes := fun s h => hs s (by simp [PrimExpr.nodes, h])
      have h1 := visit_spec d root hwf a m hsa hc
      have h2 := visit_spec d root hwf b _ hsb h1.1.1
      obtain ⟨hg, ra, rb⟩ :=
        operands_read (hsa _ (mem_nodes_self _)) (hsb _ (mem_nodes_self _)) h1 h2
      simp only [VisitExpr, MustNonNegative_eq]
      exact record_step hwf (hs _ (mem_nodes_self _)) hg (by simp [nn, ra, rb])
  | .FloorDivNode p a b, m, hs, hc => by
      have hsa : ∀ s ∈ a.nodes, s ∈ root.nodes := fun s h => hs s (by simp [PrimExpr.nodes, h])
      have hsb : ∀ s ∈ b.nodes, s ∈ root.nodes := fun s h => hs s (by simp [PrimExpr.nodes, h])
      have h1 := visit_spec d root hwf a m hsa hc
      have h2 := visit_spec d root hwf b _ hsb h1.1.1
      obtain ⟨hg, ra, rb⟩ :=
        operands_read (hsa _ (mem_nodes_self _)) (hsb _ (mem_nodes_self _)) h1 h2
      simp only [VisitExpr, bothNonNegative_eq]
      exact record_step hwf (hs _ (mem_nodes_self _)) hg (by simp [nn, ra, rb])
  | .FloorModNode p a b, m, hs, hc => by
      have hsa : ∀ s ∈ a.nodes, s ∈ root.nodes := fun s h => hs s (by simp [PrimExpr.nodes, h])
      have hsb : ∀ s ∈ b.nodes, s ∈ root.nodes := fun s h => hs s (by simp [PrimExpr.nodes, h])
      have h1 := visit_spec d root hwf a m hsa hc
      have h2 := visit_spec d root hwf b _ hsb h1.1.1
      obtain ⟨hg, ra, rb⟩ :=
        operands_read (hsa _ (mem_nodes_self _)) (hsb _ (mem_nodes_self _)) h1 h2
      simp only [VisitExpr, MustNonNegative_eq]
      exact record_step hwf (hs _ (mem_nodes_self _)) hg (by simp [nn, ra, rb])
  | .MinNode p a b, m, hs, hc => by
      have hsa : ∀ s ∈ a.nodes, s ∈ root.nodes := fun s h => hs s (by simp [PrimExpr.nodes, h])
      have hsb : ∀ s ∈ b.nodes, s ∈ root.nodes := fun s h => hs s (by simp [PrimExpr.nodes, h])
      have h1 := visit_spec d root hwf a m hsa hc
      have h2 := visit_spec d root hwf b _ hsb h1.1.1
      obtain ⟨hg, ra, rb⟩ :=
        operands_read (hsa _ (mem_nodes_self _)) (hsb _ (mem_nodes_self _)) h1 h2
      simp only [VisitExpr, bothNonNegative_eq]
      exact record_step hwf (hs _ (mem_nodes_self _)) hg (by simp [nn, ra, rb])
  | .MaxNode p a b, m, hs, hc => by
      have hsa : ∀ s ∈ a.nodes, s ∈ root.nodes := fun s h => hs s (by simp [PrimExpr.nodes, h])
      have hsb : ∀ s ∈ b.nodes, s ∈ root.nodes := fun s h => hs s (by simp [PrimExpr.nodes, h])
      have h1 := visit_spec d root hwf a m hsa hc
      have h2 := visit_spec d root hwf b _ hsb h1.1.1
      obtain ⟨hg, ra, rb⟩ :=
        operands_read (hsa _ (mem_nodes_self _)) (hsb _ (mem_nodes_self _)) h1 h2
      simp only [VisitExpr, bothNonNegative_eq]
      exact record_step hwf (hs _ (mem_nodes_self _)) hg (by simp [nn, ra, rb])
  | .AndNode p a b, m, hs, hc =>
      record_step hwf (hs _ (mem_nodes_self _)) (Grows.refl hc) rfl
  | .OrNode p a b, m, hs, hc =>
      record_step hwf (hs _ (mem_nodes_self _)) (Grows.refl hc) rfl
  | .IntImmNode p v, m, hs, hc =>
      record_step hwf (hs _ (mem_nodes_self _)) (Grows.refl hc) rfl
  | .FloatImmNode p v, m, hs, hc =>
      record_step hwf (hs _ (mem_nodes_self _)) (Grows.refl hc) rfl
  | .OtherNode p es, m, hs, hc => by
      have hses : ∀ s ∈ nodesList es, s ∈ root.nodes :=
        fun s h => hs s (by simp [PrimExpr.nodes, h])
      refine ⟨?_, fun h => by simp [PrimExpr.recognized] at h⟩
      cases d with
      | false => simpa [VisitExpr] using Grows.refl hc
      | true => simpa [VisitExpr] using visits_spec true root hwf es m hses hc
theorem visits_spec (d : Bool) (root : PrimExpr) (hwf : WellFormed root) :
    ∀ (es : List PrimExpr) (m : Cache), (∀ s ∈ nodesList es, s ∈ root.nodes) →
      Consistent root m → Grows root m (VisitExprs d es m)
  | [], m, _, hc => by simpa [VisitExprs] using Grows.refl hc
  | e :: es, m, hs, hc => by
      have hse : ∀ s ∈ e.nodes, s ∈ root.nodes := fun s h => hs s (by simp [nodesList, h])
      have hses : ∀ s ∈ nodesList es, s ∈ root.nodes :=
        fun s h => hs s (by simp [nodesList, h])
      have h1 := visit_spec d root hwf e m hse hc
      have h2 := visits_spec d root hwf es _ hses h1.1.1
      simpa [VisitExprs] using h1.1.trans h2
end

theorem Consistent.nil (root : PrimExpr) : Consistent root [] := by
  intro s _ v hv
  simp [List.lookup] at hv

/-- The verdict `Check` returns for a well-formed DAG is the verdict of the
rule table; the lemma the theorems about `Check` share. -/
theorem Check_fst (d : Bool) (e : PrimExpr) (m : Cache) (hwf : WellFormed e) :
    (Check d e m).1 = nn e := by
  have h := visit_spec d e hwf e [] (fun _ hs => hs) (Consistent.nil e)
  simp only [Check, Cache.clear, MustNonNegative_eq]
  exact read_eq h.1.1 (mem_nodes_self e) fun hr => by simp [h.2 hr]

/-! ## Sub-DAGs and the fragments -/

theorem WellFormed.of_subset {root e : PrimExpr} (hwf : WellFormed root)
    (h : ∀ s ∈ e.nodes, s ∈ root.nodes) : WellFormed e :=
  fun s hs t ht hp => hwf s (h s hs) t (h t ht) hp

theorem nn_conjunctive : ∀ (e : PrimExpr), conjunctive e = true →
    (nn e = true ↔ ∀ s ∈ e.nodes, s.isLeaf = true → s.isSizeVarOrNonNegativeInt = true)
  | .VarNode p x, _ => by
      simp [nn, PrimExpr.nodes, PrimExpr.isLeaf, PrimExpr.isSizeVarOrNonNegativeInt]
  | .SizeVarNode p x, _ => by
      simp [nn, PrimExpr.nodes, PrimExpr.isLeaf, PrimExpr.isSizeVarOrNonNegativeInt]
  | .IntImmNode p x, _ => by
      simp [nn, PrimExpr.nodes, PrimExpr.isLeaf, PrimExpr.isSizeVarOrNonNegativeInt]
  | .FloatImmNode p x, h => by simp [conjunctive] at h
  | .AddNode p a b, h => by
      simp only [conjunctive, Bool.and_eq_true] at h
      simp [nn, PrimExpr.nodes, PrimExpr.isLeaf, nn_conjunctive a h.1, nn_conjunctive b h.2,
        or_imp, forall_and]
  | .SubNode p a b, h => by simp [conjunctive] at h
  | .MulNode p a b, h => by
      simp only [conjunctive, Bool.and_eq_true] at h
      simp [nn, PrimExpr.nodes, PrimExpr.isLeaf, nn_conjunctive a h.1, nn_conjunctive b h.2,
        or_imp, forall_and]
  | .DivNode p a b, h => by
      simp only [conjunctive, Bool.and_eq_true] at h
      simp [nn, PrimExpr.nodes, PrimExpr.isLeaf, nn_conjunctive a h.1, nn_conjunctive b h.2,
        or_imp, forall_and]
  | .ModNode p a b, h => by simp [conjunctive] at h
  | .FloorDivNode p a b, h => by
      simp only [conjunctive, Bool.and_eq_true] at h
      simp [nn, PrimExpr.nodes, PrimExpr.isLeaf, nn_conjunctive a h.1, nn_conjunctive b h.2,
        or_imp, forall_and]
  | .FloorModNode p a b, h => by simp [conjunctive] at h
  | .MinNode p a b, h => by
      simp only [conjunctive, Bool.and_eq_true] at h
      simp [nn, PrimExpr.nodes, PrimExpr.isLeaf, nn_conjunctive a h.1, nn_conjunctive b h.2,
        or_imp, forall_and]
  | .MaxNode p a b, h => by
      simp only [conjunctive, Bool.and_eq_true] at h
      simp [nn, PrimExpr.nodes, PrimExpr.isLeaf, nn_conjunctive a h.1, nn_conjunctive b h.2,
        or_imp, forall_and]
  | .AndNode p a b, h => by simp [conjunctive] at h
  | .OrNode p a b, h => by simp [conjunctive] at h
  | .OtherNode p es, h => by simp [conjunctive] at h

/-! ## The claims -/

/-- C1: soundness of `Check` fails on the truncating remainder.  On
`Mod(x, n)`, with `x` a variable and `n` a size variable, `Check` returns true
(the rule of `ModNode` reads the verdict of the divisor only), and under the
assignment `x = -1`, `n = 2`, which gives the size variable a value that is not
negative and the divisor a value that is not 0, the value of the expression is
`-1`. -/
theorem Check_Mod_not_sound :
    WellFormed (.ModNode 0 (.VarNode 1 "x") (.SizeVarNode 2 "n")) ∧
    SizeVarsNonNegative (fun p => if p = 1 then -1 else 2)
      (.ModNode 0 (.VarNode 1 "x") (.SizeVarNode 2 "n")) ∧
    (Check true (.ModNode 0 (.VarNode 1 "x") (.SizeVarNode 2 "n")) []).1 = true ∧
    (Check false (.ModNode 0 (.VarNode 1 "x") (.SizeVarNode 2 "n")) []).1 = true ∧
    eval (fun p => if p = 1 then -1 else 2)
      (.ModNode 0 (.VarNode 1 "x") (.SizeVarNode 2 "n")) = some (-1) := by
  refine ⟨by decide, by decide, by decide, by decide, by decide⟩

/-- C2: on every well-formed DAG (children may be shared), whatever the map
held on entry, the stateful visitor with its address-keyed map returns the
verdict of the structurally recursive rule table `nn`. -/
theorem Check_eq_nn (descend : Bool) (e : PrimExpr) (m : Cache) (hwf : WellFormed e) :
    (Check descend e m).1 = nn e :=
  Check_fst descend e m hwf

theorem Check_eq_nn_witness :
    WellFormed (.AddNode 0 (.ModNode 1 (.OtherNode 2 [.VarNode 3 "v"]) (.SizeVarNode 4 "x"))
      (.MinNode 5 (.SizeVarNode 4 "x") (.IntImmNode 6 7))) ∧
    (Check true (.AddNode 0 (.ModNode 1 (.OtherNode 2 [.VarNode 3 "v"]) (.SizeVarNode 4 "x"))
      (.MinNode 5 (.SizeVarNode 4 "x") (.IntImmNode 6 7))) [(4, false)]).1 =
      nn (.AddNode 0 (.ModNode 1 (.OtherNode 2 [.VarNode 3 "v"]) (.SizeVarNode 4 "x"))
      (.MinNode 5 (.SizeVarNode 4 "x") (.IntImmNode 6 7))) :=
  ⟨by decide, Check_eq_nn true _ _ (by decide)⟩

/-- C3: no verdict leaks from one call into the next.  For all expressions `A`
and `B` and every map `m` held by the checker, `Check B` run after `Check A`
returns what `Check B` returns on a checker with an empty map; and the result
of `Check B` is the same for any two maps held on entry. -/
theorem Check_no_leak (descend : Bool) (A B : PrimExpr) (m m' : Cache) :
    (Check descend B (Check descend A m).2).1 = (Check descend B []).1 ∧
    (Check descend B m).1 = (Check descend B m').1 :=
  ⟨rfl, rfl⟩

/-- C4: a subtraction is never proven non-negative: `Check (Sub a b)` is false
for all operands, also when both are the same node and when both check as
true. -/
theorem Check_Sub (descend : Bool) (p : Nat) (a b : PrimExpr) (m : Cache) :
    (Check descend (.SubNode p a b) m).1 = false := by
  simp [Check, VisitExpr, MustNonNegative_eq, lookup_assign, PrimExpr.ptr]

/-- C5: `Check (And e1 e2)` and `Check (Or e1 e2)` are true for all operands,
whatever the operands are or contain. -/
theorem Check_And_Or (descend : Bool) (p : Nat) (e1 e2 : PrimExpr) (m : Cache) :
    (Check descend (.AndNode p e1 e2) m).1 = true ∧
    (Check descend (.OrNode p e1 e2) m).1 = true := by
  simp [Check, VisitExpr, MustNonNegative_eq, lookup_assign, PrimExpr.ptr]

/-- C6: on a well-formed expression of the conjunctive fragment (`Add`, `Mul`,
`Div`, `FloorDiv`, `Min`, `Max` over variables, size variables and integer
constants) `Check` returns true if and only if every leaf is a size variable or
an integer constant of value at least 0. -/
theorem Check_conjunctive (descend : Bool) (e : PrimExpr) (m : Cache) (hwf : WellFormed e)
    (hfrag : conjunctive e = true) :
    (Check descend e m).1 = true ↔
      ∀ s ∈ e.nodes, s.isLeaf = true → s.isSizeVarOrNonNegativeInt = true := by
  rw [Check_fst descend e m hwf]
  exact nn_conjunctive e hfrag

theorem Check_conjunctive_witness :
    WellFormed (.AddNode 0 (.MulNode 1 (.SizeVarNode 2 "x") (.SizeVarNode 3 "y"))
      (.SizeVarNode 4 "z")) ∧
    conjunctive (.AddNode 0 (.MulNode 1 (.SizeVarNode 2 "x") (.SizeVarNode 3 "y"))
      (.SizeVarNode 4 "z")) = true ∧
    (Check true (.AddNode 0 (.MulNode 1 (.SizeVarNode 2 "x") (.SizeVarNode 3 "y"))
      (.SizeVarNode 4 "z")) []).1 = true :=
  ⟨by decide, by decide,
    (Check_conjunctive true _ [] (by decide) (by decide)).2 (by decide)⟩

/-- C7: on a well-formed expression, the verdict of a remainder is the verdict
of its divisor: `Check (Mod a b) = Check b` and `Check (FloorMod a b) = Check b`,
whatever the dividend `a` is. -/
theorem Check_Mod_FloorMod (descend : Bool) (p : Nat) (a b : PrimExpr) (m m' : Cache)
    (root : PrimExpr) (hroot : root ∈ [PrimExpr.ModNode p a b, PrimExpr.FloorModNode p a b])
    (hwf : WellFormed root) :
    (Check descend root m).1 = (Check descend b m').1 := by
  have hb : ∀ s ∈ b.nodes, s ∈ root.nodes := by
    intro s hs
    simp only [List.mem_cons, List.mem_singleton, List.not_mem_nil, or_false] at hroot
    rcases hroot with rfl | rfl <;> simp [PrimExpr.nodes, hs]
  rw [Check_fst descend root m hwf, Check_fst descend b m' (hwf.of_subset hb)]
  simp only [List.mem_cons, List.mem_singleton, List.not_mem_nil, or_false] at hroot
  rcases hroot with rfl | rfl <;> simp [nn]

theorem Check_Mod_FloorMod_witness :
    (PrimExpr.ModNode 0 (.VarNode 1 "v") (.SizeVarNode 2 "n") ∈
      [PrimExpr.ModNode 0 (.VarNode 1 "v") (.SizeVarNode 2 "n"),
        PrimExpr.FloorModNode 0 (.VarNode 1 "v") (.SizeVarNode 2 "n")] ∧
    WellFormed (.ModNode 0 (.VarNode 1 "v") (.SizeVarNode 2 "n")) ∧
    (Check true (.ModNode 0 (.VarNode 1 "v") (.SizeVarNode 2 "n")) []).1 =
      (Check true (.SizeVarNode 2 "n") []).1) ∧
    (PrimExpr.FloorModNode 0 (.SizeVarNode 2 "n") (.VarNode 1 "v") ∈
      [PrimExpr.ModNode 0 (.SizeVarNode 2 "n") (.VarNode 1 "v"),
        PrimExpr.FloorModNode 0 (.SizeVarNode 2 "n") (.VarNode 1 "v")] ∧
    WellFormed (.FloorModNode 0 (.SizeVarNode 2 "n") (.VarNode 1 "v")) ∧
    (Check true (.FloorModNode 0 (.SizeVarNode 2 "n") (.VarNode 1 "v")) []).1 =
      (Check true (.VarNode 1 "v") []).1) :=
  ⟨⟨by decide, by decide,
      Check_Mod_FloorMod true 0 (.VarNode 1 "v") (.SizeVarNode 2 "n") [] [] _
        (by decide) (by decide)⟩,
    ⟨by decide, by decide,
      Check_Mod_FloorMod true 0 (.SizeVarNode 2 "n") (.VarNode 1 "v") [] [] _
        (by decide) (by decide)⟩⟩

/-- C8: the check of an integer literal of value `v` is `v >= 0`, whatever the
address of the node and the map held on entry. -/
theorem Check_IntImm (descend : Bool) (p : Nat) (v : Int) (m : Cache) :
    (Check descend (.IntImmNode p v) m).1 = decide (v ≥ 0) := by
  simp [Check, VisitExpr, MustNonNegative_eq, lookup_assign, PrimExpr.ptr]

/-- C9: for every name, `Check` of a size variable is true and `Check` of a
plain variable is false. -/
theorem Check_SizeVar_Var (descend : Bool) (p : Nat) (name : String) (m : Cache) :
    (Check descend (.SizeVarNode p name) m).1 = true ∧
    (Check descend (.VarNode p name) m).1 = false := by
  simp [Check, VisitExpr, MustNonNegative_eq, lookup_assign, PrimExpr.ptr]

/-- C10: unrecognized kinds fail safe to false.  For a node `u` of an
unrecognized kind, `Check` returns false on each of the well-formed expressions
`u`, `op(u, e)` and `op(e, u)` for `op` among `Add`, `Mul`, `Div`, `FloorDiv`,
`Min`, `Max`, and on `Mod(e, u)` and `FloorMod(e, u)`. -/
theorem Check_unrecognized (descend : Bool) (q : Nat) (operands : List PrimExpr)
    (op : ConjOp) (p : Nat) (e : PrimExpr) (m : Cache) (root : PrimExpr)
    (hroot : root ∈ [PrimExpr.OtherNode q operands,
      op.node p (.OtherNode q operands) e, op.node p e (.OtherNode q operands),
      PrimExpr.ModNode p e (.OtherNode q operands),
      PrimExpr.FloorModNode p e (.OtherNode q operands)])
    (hwf : WellFormed root) :
    (Check descend root m).1 = false := by
  rw [Check_fst descend root m hwf]
  simp only [List.mem_cons, List.mem_singleton, List.not_mem_nil, or_false] at hroot
  rcases hroot with rfl | rfl | rfl | rfl | rfl <;> cases op <;> simp [nn, ConjOp.node]

theorem Check_unrecognized_witness :
    PrimExpr.AddNode 0 (.OtherNode 1 [.SizeVarNode 2 "n"]) (.SizeVarNode 2 "n") ∈
      [PrimExpr.OtherNode 1 [.SizeVarNode 2 "n"],
        ConjOp.Add.node 0 (.OtherNode 1 [.SizeVarNode 2 "n"]) (.SizeVarNode 2 "n"),
        ConjOp.Add.node 0 (.SizeVarNode 2 "n") (.OtherNode 1 [.SizeVarNode 2 "n"]),
        PrimExpr.ModNode 0 (.SizeVarNode 2 "n") (.OtherNode 1 [.SizeVarNode 2 "n"]),
        PrimExpr.FloorModNode 0 (.SizeVarNode 2 "n") (.OtherNode 1 [.SizeVarNode 2 "n"])] ∧
    WellFormed (.AddNode 0 (.OtherNode 1 [.SizeVarNode 2 "n"]) (.SizeVarNode 2 "n")) ∧
    (Check true (.AddNode 0 (.OtherNode 1 [.SizeVarNode 2 "n"]) (.SizeVarNode 2 "n")) []).1 =
      false :=
  ⟨by decide, by decide,
    Check_unrecognized true 1 [.SizeVarNode 2 "n"] .Add 0 (.SizeVarNode 2 "n") [] _
      (by decide) (by decide)⟩

/-! ## The rule table under erasure of addresses, upgrades of leaves and evaluation -/

theorem nn_shape : ∀ (e : PrimExpr), nn e.shape = nn e
  | .VarNode _ _ => rfl
  | .SizeVarNode _ _ => rfl
  | .IntImmNode _ _ => rfl
  | .FloatImmNode _ _ => rfl
  | .AddNode _ a b => by simp [PrimExpr.shape, nn, nn_shape a, nn_shape b]
  | .SubNode _ _ _ => rfl
  | .MulNode _ a b => by simp [PrimExpr.shape, nn, nn_shape a, nn_shape b]
  | .DivNode _ a b => by simp [PrimExpr.shape, nn, nn_shape a, nn_shape b]
  | .ModNode _ _ b => by simp [PrimExpr.shape, nn, nn_shape b]
  | .FloorDivNode _ a b => by simp [PrimExpr.shape, nn, nn_shape a, nn_shape b]
  | .FloorModNode _ _ b => by simp [PrimExpr.shape, nn, nn_shape b]
  | .MinNode _ a b => by simp [PrimExpr.shape, nn, nn_shape a, nn_shape b]
  | .MaxNode _ a b => by simp [PrimExpr.shape, nn, nn_shape a, nn_shape b]
  | .AndNode _ _ _ => rfl
  | .OrNode _ _ _ => rfl
  | .OtherNode _ _ => rfl

theorem nn_upgrades : ∀ (e e' : PrimExpr), e.upgradesTo e' = true → nn e = true → nn e' = true
  | .VarNode _ _, _, _, hn => by simp [nn] at hn
  | .SizeVarNode _ _, e', h, _ => by
      cases e' <;> simp [PrimExpr.upgradesTo, nn] at h ⊢
  | .IntImmNode _ v, e', h, hn => by
      cases e' <;> simp [PrimExpr.upgradesTo, nn] at h hn ⊢
      rcases h with h | h
      · exact h ▸ hn
      · exact h.2
  | .FloatImmNode _ v, e', h, hn => by
      cases e' <;> simp [PrimExpr.upgradesTo, nn] at h hn ⊢
      exact h ▸ hn
  | .AddNode _ a b, e', h, hn => by
      cases e' with
      | AddNode _ c d =>
        simp only [PrimExpr.upgradesTo, Bool.and_eq_true] at h
        simp only [nn, Bool.and_eq_true] at hn ⊢
        exact ⟨nn_upgrades a c h.1 hn.1, nn_upgrades b d h.2 hn.2⟩
      | _ => simp [PrimExpr.upgradesTo] at h
  | .SubNode _ _ _, _, _, hn => by simp [nn] at hn
  | .MulNode _ a b, e', h, hn => by
      cases e' with
      | MulNode _ c d =>
        simp only [PrimExpr.upgradesTo, Bool.and_eq_true] at h
        simp only [nn, Bool.and_eq_true] at hn ⊢
        exact ⟨nn_upgrades a c h.1 hn.1, nn_upgrades b d h.2 hn.2⟩
      | _ => simp [PrimExpr.upgradesTo] at h
  | .DivNode _ a b, e', h, hn => by
      cases e' with
      | DivNode _ c d =>
        simp only [PrimExpr.upgradesTo, Bool.and_eq_true] at h
        simp only [nn, Bool.and_eq_true] at hn ⊢
        exact ⟨nn_upgrades a c h.1 hn.1, nn_upgrades b d h.2 hn.2⟩
      | _ => simp [PrimExpr.upgradesTo] at h
  | .ModNode _ a b, e', h, hn => by
      cases e' with
      | ModNode _ c d =>
        simp only [PrimExpr.upgradesTo, Bool.and_eq_true] at h
        simp only [nn] at hn ⊢
        exact nn_upgrades b d h.2 hn
      | _ => simp [PrimExpr.upgradesTo] at h
  | .FloorDivNode _ a b, e', h, hn => by
      cases e' with
      | FloorDivNode _ c d =>
        simp only [PrimExpr.upgradesTo, Bool.and_eq_true] at h
        simp only [nn, Bool.and_eq_true] at hn ⊢
        exact ⟨nn_upgrades a c h.1 hn.1, nn_upgrades b d h.2 hn.2⟩
      | _ => simp [PrimExpr.upgradesTo] at h
  | .FloorModNode _ a b, e', h, hn => by
      cases e' with
      | FloorModNode _ c d =>
        simp only [PrimExpr.upgradesTo, Bool.and_eq_true] at h
        simp only [nn] at hn ⊢
        exact nn_upgrades b d h.2 hn
      | _ => simp [PrimExpr.upgradesTo] at h
  | .MinNode _ a b, e', h, hn => by
      cases e' with
      | MinNode _ c d =>
        simp only [PrimExpr.upgradesTo, Bool.and_eq_true] at h
        simp only [nn, Bool.and_eq_true] at hn ⊢
        exact ⟨nn_upgrades a c h.1 hn.1, nn_upgrades b d h.2 hn.2⟩
      | _ => simp [PrimExpr.upgradesTo] at h
  | .MaxNode _ a b, e', h, hn => by
      cases e' with
      | MaxNode _ c d =>
        simp only [PrimExpr.upgradesTo, Bool.and_eq_true] at h
        simp only [nn, Bool.and_eq_true] at hn ⊢
        exact ⟨nn_upgrades a c h.1 hn.1, nn_upgrades b d h.2 hn.2⟩
      | _ => simp [PrimExpr.upgradesTo] at h
  | .AndNode _ _ _, e', h, _ => by
      cases e' <;> simp [PrimExpr.upgradesTo, nn] at h ⊢
  | .OrNode _ _ _, e', h, _ => by
      cases e' <;> simp [PrimExpr.upgradesTo, nn] at h ⊢
  | .OtherNode _ _, _, _, hn => by simp [nn] at hn

theorem boolToInt_nonneg (c : Bool) : 0 ≤ boolToInt c := by
  cases c <;> simp [boolToInt]

theorem nn_sound (σ : Nat → Int) : ∀ (e : PrimExpr) (x : Int),
    (∀ s ∈ e.nodes, s.isSizeVar = true → 0 ≤ σ s.ptr) → e.modFree = true →
    eval σ e = some x → nn e = true → 0 ≤ x
  | .VarNode _ _, _, _, _, _, hn => by simp [nn] at hn
  | .SizeVarNode p n, x, hσ, _, hx, _ => by
      simp only [eval, Option.some.injEq] at hx
      exact hx ▸ hσ (.SizeVarNode p n) (by simp [PrimExpr.nodes]) rfl
  | .IntImmNode _ v, x, _, _, hx, hn => by
      simp only [eval, Option.some.injEq] at hx
      simpa [nn, hx] using hn
  | .FloatImmNode _ _, _, _, _, hx, _ => by simp [eval] at hx
  | .AddNode _ a b, x, hσ, hmf, hx, hn => by
      have hsa : ∀ s ∈ a.nodes, s.isSizeVar = true → 0 ≤ σ s.ptr :=
        fun s h => hσ s (by simp [PrimExpr.nodes, h])
      have hsb : ∀ s ∈ b.nodes, s.isSizeVar = true → 0 ≤ σ s.ptr :=
        fun s h => hσ s (by simp [PrimExpr.nodes, h])
      simp only [PrimExpr.modFree, Bool.and_eq_true] at hmf
      simp only [eval, Option.bind_eq_some] at hx
      obtain ⟨xa, hxa, xb, hxb, hx⟩ := hx
      simp only [nn, Bool.and_eq_true] at hn
      simp only [Option.some.injEq] at hx
      have := nn_sound σ a xa hsa hmf.1 hxa hn.1
      have := nn_sound σ b xb hsb hmf.2 hxb hn.2
      omega
  | .SubNode _ _ _, _, _, _, _, hn => by simp [nn] at hn
  | .MulNode _ a b, x, hσ, hmf, hx, hn => by
      have hsa : ∀ s ∈ a.nodes, s.isSizeVar = true → 0 ≤ σ s.ptr :=
        fun s h => hσ s (by simp [PrimExpr.nodes, h])
      have hsb : ∀ s ∈ b.nodes, s.isSizeVar = true → 0 ≤ σ s.ptr :=
        fun s h => hσ s (by simp [PrimExpr.nodes, h])
      simp only [PrimExpr.modFree, Bool.and_eq_true] at hmf
      simp only [eval, Option.bind_eq_some] at hx
      obtain ⟨xa, hxa, xb, hxb, hx⟩ := hx
      simp only [nn, Bool.and_eq_true] at hn
      simp only [Option.some.injEq] at hx
      have h1 := nn_sound σ a xa hsa hmf.1 hxa hn.1
      have h2 := nn_sound σ b xb hsb hmf.2 hxb hn.2
      exact hx ▸ Int.mul_nonneg h1 h2
  | .DivNode _ a b, x, hσ, hmf, hx, hn => by
      have hsa : ∀ s ∈ a.nodes, s.isSizeVar = true → 0 ≤ σ s.ptr :=
        fun s h => hσ s (by simp [PrimExpr.nodes, h])
      have hsb : ∀ s ∈ b.nodes, s.isSizeVar = true → 0 ≤ σ s.ptr :=
        fun s h => hσ s (by simp [PrimExpr.nodes, h])
      simp only [PrimExpr.modFree, Bool.and_eq_true] at hmf
      simp only [eval, Option.bind_eq_some] at hx
      obtain ⟨xa, hxa, xb, hxb, hx⟩ := hx
      simp only [nn, Bool.and_eq_true] at hn
      split at hx
      · simp at hx
      · simp only [Option.some.injEq] at hx
        exact hx ▸ Int.tdiv_nonneg (nn_sound σ a xa hsa hmf.1 hxa hn.1)
          (nn_sound σ b xb hsb hmf.2 hxb hn.2)
  | .ModNode _ _ _, _, _, hmf, _, _ => by simp [PrimExpr.modFree] at hmf
  | .FloorDivNode _ a b, x, hσ, hmf, hx, hn => by
      have hsa : ∀ s ∈ a.nodes, s.isSizeVar = true → 0 ≤ σ s.ptr :=
        fun s h => hσ s (by simp [PrimExpr.nodes, h])
      have hsb : ∀ s ∈ b.nodes, s.isSizeVar = true → 0 ≤ σ s.ptr :=
        fun s h => hσ s (by simp [PrimExpr.nodes, h])
      simp only [PrimExpr.modFree, Bool.and_eq_true] at hmf
      simp only [eval, Option.bind_eq_some] at hx
      obtain ⟨xa, hxa, xb, hxb, hx⟩ := hx
      simp only [nn, Bool.and_eq_true] at hn
      split at hx
      · simp at hx
      · simp only [Option.some.injEq] at hx
        exact hx ▸ Int.fdiv_nonneg (nn_sound σ a xa hsa hmf.1 hxa hn.1)
          (nn_sound σ b xb hsb hmf.2 hxb hn.2)
  | .FloorModNode _ a b, x, hσ, hmf, hx, hn => by
      have hsa : ∀ s ∈ a.nodes, s.isSizeVar = true → 0 ≤ σ s.ptr :=
        fun s h => hσ s (by simp [PrimExpr.nodes, h])
      have hsb : ∀ s ∈ b.nodes, s.isSizeVar = true → 0 ≤ σ s.ptr :=
        fun s h => hσ s (by simp [PrimExpr.nodes, h])
      simp only [PrimExpr.modFree, Bool.and_eq_true] at hmf
      simp only [eval, Option.bind_eq_some] at hx
      obtain ⟨xa, hxa, xb, hxb, hx⟩ := hx
      simp only [nn] at hn
      split at hx
      · simp at hx
      · rename_i hne
        simp only [Option.some.injEq] at hx
        have hb := nn_sound σ b xb hsb hmf.2 hxb hn
        exact hx ▸ Int.fmod_nonneg' xa (lt_of_le_of_ne hb (Ne.symm hne))
  | .MinNode _ a b, x, hσ, hmf, hx, hn => by
      have hsa : ∀ s ∈ a.nodes, s.isSizeVar = true → 0 ≤ σ s.ptr :=
        fun s h => hσ s (by simp [PrimExpr.nodes, h])
      have hsb : ∀ s ∈ b.nodes, s.isSizeVar = true → 0 ≤ σ s.ptr :=
        fun s h => hσ s (by simp [PrimExpr.nodes, h])
      simp only [PrimExpr.modFree, Bool.and_eq_true] at hmf
      simp only [eval, Option.bind_eq_some] at hx
      obtain ⟨xa, hxa, xb, hxb, hx⟩ := hx
      simp only [nn, Bool.and_eq_true] at hn
      simp only [Option.some.injEq] at hx
      exact hx ▸ le_min (nn_sound σ a xa hsa hmf.1 hxa hn.1)
        (nn_sound σ b xb hsb hmf.2 hxb hn.2)
  | .MaxNode _ a b, x, hσ, hmf, hx, hn => by
      have hsa : ∀ s ∈ a.nodes, s.isSizeVar = true → 0 ≤ σ s.ptr :=
        fun s h => hσ s (by simp [PrimExpr.nodes, h])
      have hsb : ∀ s ∈ b.nodes, s.isSizeVar = true → 0 ≤ σ s.ptr :=
        fun s h => hσ s (by simp [PrimExpr.nodes, h])
      simp only [PrimExpr.modFree, Bool.and_eq_true] at hmf
      simp only [eval, Option.bind_eq_some] at hx
      obtain ⟨xa, hxa, xb, hxb, hx⟩ := hx
      simp only [nn, Bool.and_eq_true] at hn
      simp only [Option.some.injEq] at hx
      exact hx ▸ le_max_of_le_left (nn_sound σ a xa hsa hmf.1 hxa hn.1)
  | .AndNode _ a b, x, _, _, hx, _ => by
      simp only [eval, Option.bind_eq_some] at hx
      obtain ⟨xa, -, xb, -, hx⟩ := hx
      simp only [Option.some.injEq] at hx
      rw [← hx]
      exact boolToInt_nonneg _
  | .OrNode _ a b, x, _, _, hx, _ => by
      simp only [eval, Option.bind_eq_some] at hx
      obtain ⟨xa, -, xb, -, hx⟩ := hx
      simp only [Option.some.injEq] at hx
      rw [← hx]
      exact boolToInt_nonneg _
  | .OtherNode _ _, _, _, _, hx, _ => by simp [eval] at hx

/-! ## The visitor with its operations is the visitor -/

theorem MustNonNegativeT_fst (e : PrimExpr) (m : Cache) :
    (MustNonNegativeT e m).1 = MustNonNegative e m := rfl

theorem bothNonNegativeT_fst (a b : PrimExpr) (m : Cache) :
    (bothNonNegativeT a b m).1 = bothNonNegative a b m := by
  by_cases h : (MustNonNegative a m).1 = true <;> simp [bothNonNegativeT, bothNonNegative, h]

mutual
theorem VisitExprT_fst (d : Bool) : ∀ (e : PrimExpr) (m : Cache),
    (VisitExprT d e m).1 = VisitExpr d e m
  | .VarNode p x, m => rfl
  | .SizeVarNode p x, m => rfl
  | .IntImmNode p x, m => rfl
  | .FloatImmNode p x, m => rfl
  | .AddNode p a b, m => by
      simp only [VisitExprT, VisitExpr, bothNonNegativeT_fst, VisitExprT_fst d a, VisitExprT_fst d b]
  | .SubNode p a b, m => rfl
  | .MulNode p a b, m => by
      simp only [VisitExprT, VisitExpr, bothNonNegativeT_fst, VisitExprT_fst d a, VisitExprT_fst d b]
  | .DivNode p a b, m => by
      simp only [VisitExprT, VisitExpr, bothNonNegativeT_fst, VisitExprT_fst d a, VisitExprT_fst d b]
  | .ModNode p a b, m => by
      simp only [VisitExprT, VisitExpr, MustNonNegativeT_fst, VisitExprT_fst d a, VisitExprT_fst d b]
  | .FloorDivNode p a b, m => by
      simp only [VisitExprT, VisitExpr, bothNonNegativeT_fst, VisitExprT_fst d a, VisitExprT_fst d b]
  | .FloorModNode p a b, m => by
      simp only [VisitExprT, VisitExpr, MustNonNegativeT_fst, VisitExprT_fst d a, VisitExprT_fst d b]
  | .MinNode p a b, m => by
      simp only [VisitExprT, VisitExpr, bothNonNegativeT_fst, VisitExprT_fst d a, VisitExprT_fst d b]
  | .MaxNode p a b, m => by
      simp only [VisitExprT, VisitExpr, bothNonNegativeT_fst, VisitExprT_fst d a, VisitExprT_fst d b]
  | .AndNode p a b, m => rfl
  | .OrNode p a b, m => rfl
  | .OtherNode p es, m => by
      cases d with
      | false => simp [VisitExprT, VisitExpr]
      | true => simpa [VisitExprT, VisitExpr] using VisitExprsT_fst true es m
theorem VisitExprsT_fst (d : Bool) : ∀ (es : List PrimExpr) (m : Cache),
    (VisitExprsT d es m).1 = VisitExprs d es m
  | [], m => rfl
  | e :: es, m => by
      simp only [VisitExprsT, VisitExprs, VisitExprT_fst d e, VisitExprsT_fst d es]
end

theorem CheckT_fst (d : Bool) (e : PrimExpr) (m : Cache) : (CheckT d e m).1 = Check d e m := by
  simp only [CheckT, Check, MustNonNegativeT_fst, VisitExprT_fst]

/-! ## The operations of a run -/

theorem writes_append (l1 l2 : List Event) : writes (l1 ++ l2) = writes l1 ++ writes l2 := by
  induction l1 with
  | nil => rfl
  | cons ev l ih => cases ev <;> simp [writes, ih]

theorem mem_writes {l : List Event} {k : Nat} {v : Bool} (h : (k, v) ∈ writes l) :
    Event.write k v ∈ l := by
  induction l with
  | nil => simp [writes] at h
  | cons ev l ih =>
    cases ev with
    | write k' v' =>
      simp only [writes, List.mem_cons, Prod.mk.injEq] at h
      rcases h with ⟨rfl, rfl⟩ | h
      · simp
      · simp [ih h]
    | read k' v' =>
      simp only [writes] at h
      simp [ih h]

theorem writes_MustNonNegativeT (e : PrimExpr) (m : Cache) :
    writes (MustNonNegativeT e m).2 = [] := rfl

theorem writes_bothNonNegativeT (a b : PrimExpr) (m : Cache) :
    writes (bothNonNegativeT a b m).2 = [] := by
  by_cases h : (MustNonNegative a m).1 = true <;> simp [bothNonNegativeT, h, writes]

theorem bothNonNegativeT_events (a b : PrimExpr) (m : Cache) :
    ∀ ev ∈ (bothNonNegativeT a b m).2,
      ev = .read a.ptr (List.lookup a.ptr m == some true) ∨
      ev = .read b.ptr (List.lookup b.ptr m == some true) := by
  intro ev h
  by_cases hc : List.lookup a.ptr m = some true
  · simpa [bothNonNegativeT, MustNonNegative_eq, hc] using h
  · left
    simpa [bothNonNegativeT, MustNonNegative_eq, hc] using h

mutual
theorem visits_subset_nodes (d : Bool) : ∀ (e : PrimExpr), ∀ s ∈ e.visits d, s ∈ e.nodes
  | .VarNode p x, s, h => by
      simp only [PrimExpr.visits, List.mem_singleton] at h
      simp [PrimExpr.nodes, h]
  | .SizeVarNode p x, s, h => by
      simp only [PrimExpr.visits, List.mem_singleton] at h
      simp [PrimExpr.nodes, h]
  | .IntImmNode p x, s, h => by
      simp only [PrimExpr.visits, List.mem_singleton] at h
      simp [PrimExpr.nodes, h]
  | .FloatImmNode p x, s, h => by
      simp only [PrimExpr.visits, List.mem_singleton] at h
      simp [PrimExpr.nodes, h]
  | .AddNode p a b, s, h => by
      simp only [PrimExpr.visits, List.mem_append, List.mem_singleton] at h
      rcases h with (h | h) | h
      · simp [PrimExpr.nodes, visits_subset_nodes d a s h]
      · simp [PrimExpr.nodes, visits_subset_nodes d b s h]
      · simp [PrimExpr.nodes, h]
  | .SubNode p a b, s, h => by
      simp only [PrimExpr.visits, List.mem_singleton] at h
      simp [PrimExpr.nodes, h]
  | .MulNode p a b, s, h => by
      simp only [PrimExpr.visits, List.mem_append, List.mem_singleton] at h
      rcases h with (h | h) | h
      · simp [PrimExpr.nodes, visits_subset_nodes d a s h]
      · simp [PrimExpr.nodes, visits_subset_nodes d b s h]
      · simp [PrimExpr.nodes, h]
  | .DivNode p a b, s, h => by
      simp only [PrimExpr.visits, List.mem_append, List.mem_singleton] at h
      rcases h with (h | h) | h
      · simp [PrimExpr.nodes, visits_subset_nodes d a s h]
      · simp [PrimExpr.nodes, visits_subset_nodes d b s h]
      · simp [PrimExpr.nodes, h]
  | .ModNode p a b, s, h => by
      simp only [PrimExpr.visits, List.mem_append, List.mem_singleton] at h
      rcases h with (h | h) | h
      · simp [PrimExpr.nodes, visits_subset_nodes d a s h]
      · simp [PrimExpr.nodes, visits_subset_nodes d b s h]
      · simp [PrimExpr.nodes, h]
  | .FloorDivNode p a b, s, h => by
      simp only [PrimExpr.visits, List.mem_append, List.mem_singleton] at h
      rcases h with (h | h) | h
      · simp [PrimExpr.nodes, visits_subset_nodes d a s h]
      · simp [PrimExpr.nodes, visits_subset_nodes d b s h]
      · simp [PrimExpr.nodes, h]
  | .FloorModNode p a b, s, h => by
      simp only [PrimExpr.visits, List.mem_append, List.mem_singleton] at h
      rcases h with (h | h) | h
      · simp [PrimExpr.nodes, visits_subset_nodes d a s h]
      · simp [PrimExpr.nodes, visits_subset_nodes d b s h]
      · simp [PrimExpr.nodes, h]
  | .MinNode p a b, s, h => by
      simp only [PrimExpr.visits, List.mem_append, List.mem_singleton] at h
      rcases h with (h | h) | h
      · simp [PrimExpr.nodes, visits_subset_nodes d a s h]
      · simp [PrimExpr.nodes, visits_subset_nodes d b s h]
      · simp [PrimExpr.nodes, h]
  | .MaxNode p a b, s, h => by
      simp only [PrimExpr.visits, List.mem_append, List.mem_singleton] at h
      rcases h with (h | h) | h
      · simp [PrimExpr.nodes, visits_subset_nodes d a s h]
      · simp [PrimExpr.nodes, visits_subset_nodes d b s h]
      · simp [PrimExpr.nodes, h]
  | .AndNode p a b, s, h => by
      simp only [PrimExpr.visits, List.mem_singleton] at h
      simp [PrimExpr.nodes, h]
  | .OrNode p a b, s, h => by
      simp only [PrimExpr.visits, List.mem_singleton] at h
      simp [PrimExpr.nodes, h]
  | .OtherNode p es, s, h => by
      cases d with
      | false => simp [PrimExpr.visits] at h
      | true =>
        simp only [PrimExpr.visits, if_true] at h
        simp [PrimExpr.nodes, visitsList_subset_nodes true es s h]
theorem visitsList_subset_nodes (d : Bool) :
    ∀ (es : List PrimExpr), ∀ s ∈ visitsList d es, s ∈ nodesList es
  | [], s, h => by simp [visitsList] at h
  | e :: es, s, h => by
      simp only [visitsList, List.mem_append] at h
      rcases h with h | h
      · simp [nodesList, visits_subset_nodes d e s h]
      · simp [nodesList, visitsList_subset_nodes d es s h]
end

mutual
theorem writes_keys (d : Bool) : ∀ (e : PrimExpr) (m : Cache),
    (writes (VisitExprT d e m).2).map Prod.fst = (e.visits d).map PrimExpr.ptr
  | .VarNode p x, m => by simp [VisitExprT, PrimExpr.visits, writes, PrimExpr.ptr]
  | .SizeVarNode p x, m => by simp [VisitExprT, PrimExpr.visits, writes, PrimExpr.ptr]
  | .IntImmNode p x, m => by simp [VisitExprT, PrimExpr.visits, writes, PrimExpr.ptr]
  | .FloatImmNode p x, m => by simp [VisitExprT, PrimExpr.visits, writes, PrimExpr.ptr]
  | .AddNode p a b, m => by
      simp only [VisitExprT, PrimExpr.visits, writes_append, writes_bothNonNegativeT, List.map_append,
        writes_keys d a, writes_keys d b]
      simp [writes, PrimExpr.ptr]
  | .SubNode p a b, m => by simp [VisitExprT, PrimExpr.visits, writes, PrimExpr.ptr]
  | .MulNode p a b, m => by
      simp only [VisitExprT, PrimExpr.visits, writes_append, writes_bothNonNegativeT, List.map_append,
        writes_keys d a, writes_keys d b]
      simp [writes, PrimExpr.ptr]
  | .DivNode p a b, m => by
      simp only [VisitExprT, PrimExpr.visits, writes_append, writes_bothNonNegativeT, List.map_append,
        writes_keys d a, writes_keys d b]
      simp [writes, PrimExpr.ptr]
  | .ModNode p a b, m => by
      simp only [VisitExprT, PrimExpr.visits, writes_append, writes_MustNonNegativeT, List.map_append,
        writes_keys d a, writes_keys d b]
      simp [writes, PrimExpr.ptr]
  | .FloorDivNode p a b, m => by
      simp only [VisitExprT, PrimExpr.visits, writes_append, writes_bothNonNegativeT, List.map_append,
        writes_keys d a, writes_keys d b]
      simp [writes, PrimExpr.ptr]
  | .FloorModNode p a b, m => by
      simp only [VisitExprT, PrimExpr.visits, writes_append, writes_MustNonNegativeT, List.map_append,
        writes_keys d a, writes_keys d b]
      simp [writes, PrimExpr.ptr]
  | .MinNode p a b, m => by
      simp only [VisitExprT, PrimExpr.visits, writes_append, writes_bothNonNegativeT, List.map_append,
        writes_keys d a, writes_keys d b]
      simp [writes, PrimExpr.ptr]
  | .MaxNode p a b, m => by
      simp only [VisitExprT, PrimExpr.visits, writes_append, writes_bothNonNegativeT, List.map_append,
        writes_keys d a, writes_keys d b]
      simp [writes, PrimExpr.ptr]
  | .AndNode p a b, m => by simp [VisitExprT, PrimExpr.visits, writes, PrimExpr.ptr]
  | .OrNode p a b, m => by simp [VisitExprT, PrimExpr.visits, writes, PrimExpr.ptr]
  | .OtherNode p es, m => by
      cases d with
      | false => simp [VisitExprT, PrimExpr.visits, writes]
      | true => simpa [VisitExprT, PrimExpr.visits] using writesList_keys true es m
theorem writesList_keys (d : Bool) : ∀ (es : List PrimExpr) (m : Cache),
    (writes (VisitExprsT d es m).2).map Prod.fst = (visitsList d es).map PrimExpr.ptr
  | [], m => by simp [VisitExprsT, visitsList, writes]
  | e :: es, m => by
      simp only [VisitExprsT, visitsList, writes_append, List.map_append, writes_keys d e,
        writesList_keys d es]
end

theorem isSome_assign (m : Cache) (k : Nat) {k' : Nat} {v : Bool}
    (h : (List.lookup k' m).isSome = true) : (List.lookup k' (m.assign k v)).isSome = true := by
  rw [lookup_assign]
  split
  · rfl
  · exact h

mutual
theorem visits_recorded (d : Bool) (root : PrimExpr) (hwf : WellFormed root) :
    ∀ (e : PrimExpr) (m : Cache), (∀ s ∈ e.nodes, s ∈ root.nodes) → Consistent root m →
      ∀ s ∈ e.visits d, (List.lookup s.ptr (VisitExpr d e m)).isSome = true
  | .VarNode p x, m, _, _, s, h => by
      simp only [PrimExpr.visits, List.mem_singleton] at h
      subst h; simp [VisitExpr, lookup_assign, PrimExpr.ptr]
  | .SizeVarNode p x, m, _, _, s, h => by
      simp only [PrimExpr.visits, List.mem_singleton] at h
      subst h; simp [VisitExpr, lookup_assign, PrimExpr.ptr]
  | .IntImmNode p x, m, _, _, s, h => by
      simp only [PrimExpr.visits, List.mem_singleton] at h
      subst h; simp [VisitExpr, lookup_assign, PrimExpr.ptr]
  | .FloatImmNode p x, m, _, _, s, h => by
      simp only [PrimExpr.visits, List.mem_singleton] at h
      subst h; simp [VisitExpr, lookup_assign, PrimExpr.ptr]
  | .AddNode p a b, m, hs, hc, s, h => by
      have hsa : ∀ s ∈ a.nodes, s ∈ root.nodes := fun s h => hs s (by simp [PrimExpr.nodes, h])
      have hsb : ∀ s ∈ b.nodes, s ∈ root.nodes := fun s h => hs s (by simp [PrimExpr.nodes, h])
      have h1 := visit_spec d root hwf a m hsa hc
      have h2 := visit_spec d root hwf b _ hsb h1.1.1
      simp only [PrimExpr.visits, List.mem_append, List.mem_singleton] at h
      simp only [VisitExpr, bothNonNegative_eq]
      rcases h with (h | h) | h
      · exact isSome_assign _ _ (h2.1.2 _ (visits_recorded d root hwf a m hsa hc s h))
      · exact isSome_assign _ _ (visits_recorded d root hwf b _ hsb h1.1.1 s h)
      · subst h; simp [lookup_assign, PrimExpr.ptr]
  | .SubNode p a b, m, _, _, s, h => by
      simp only [PrimExpr.visits, List.mem_singleton] at h
      subst h; simp [VisitExpr, lookup_assign, PrimExpr.ptr]
  | .MulNode p a b, m, hs, hc, s, h => by
      have hsa : ∀ s ∈ a.nodes, s ∈ root.nodes := fun s h => hs s (by simp [PrimExpr.nodes, h])
      have hsb : ∀ s ∈ b.nodes, s ∈ root.nodes := fun s h => hs s (by simp [PrimExpr.nodes, h])
      have h1 := visit_spec d root hwf a m hsa hc
      have h2 := visit_spec d root hwf b _ hsb h1.1.1
      simp only [PrimExpr.visits, List.mem_append, List.mem_singleton] at h
      simp only [VisitExpr, bothNonNegative_eq]
      rcases h with (h | h) | h
      · exact isSome_assign _ _ (h2.1.2 _ (visits_recorded d root hwf a m hsa hc s h))
      · exact isSome_assign _ _ (visits_recorded d root hwf b _ hsb h1.1.1 s h)
      · subst h; simp [lookup_assign, PrimExpr.ptr]
  | .DivNode p a b, m, hs, hc, s, h => by
      have hsa : ∀ s ∈ a.nodes, s ∈ root.nodes := fun s h => hs s (by simp [PrimExpr.nodes, h])
      have hsb : ∀ s ∈ b.nodes, s ∈ root.nodes := fun s h => hs s (by simp [PrimExpr.nodes, h])
      have h1 := visit_spec d root hwf a m hsa hc
      have h2 := visit_spec d root hwf b _ hsb h1.1.1
      simp only [PrimExpr.visits, List.mem_append, List.mem_singleton] at h
      simp only [VisitExpr, bothNonNegative_eq]
      rcases h with (h | h) | h
      · exact isSome_assign _ _ (h2.1.2 _ (visits_recorded d root hwf a m hsa hc s h))
      · exact isSome_assign _ _ (visits_recorded d root hwf b _ hsb h1.1.1 s h)
      · subst h; simp [lookup_assign, PrimExpr.ptr]
  | .ModNode p a b, m, hs, hc, s, h => by
      have hsa : ∀ s ∈ a.nodes, s ∈ root.nodes := fun s h => hs s (by simp [PrimExpr.nodes, h])
      have hsb : ∀ s ∈ b.nodes, s ∈ root.nodes := fun s h => hs s (by simp [PrimExpr.nodes, h])
      have h1 := visit_spec d root hwf a m hsa hc
      have h2 := visit_spec d root hwf b _ hsb h1.1.1
      simp only [PrimExpr.visits, List.mem_append, List.mem_singleton] at h
      simp only [VisitExpr, MustNonNegative_eq]
      rcases h with (h | h) | h
      · exact isSome_assign _ _ (h2.1.2 _ (visits_recorded d root hwf a m hsa hc s h))
      · exact isSome_assign _ _ (visits_recorded d root hwf b _ hsb h1.1.1 s h)
      · subst h; simp [lookup_assign, PrimExpr.ptr]
  | .FloorDivNode p a b, m, hs, hc, s, h => by
      have hsa : ∀ s ∈ a.nodes, s ∈ root.nodes := fun s h => hs s (by simp [PrimExpr.nodes, h])
      have hsb : ∀ s ∈ b.nodes, s ∈ root.nodes := fun s h => hs s (by simp [PrimExpr.nodes, h])
      have h1 := visit_spec d root hwf a m hsa hc
      have h2 := visit_spec d root hwf b _ hsb h1.1.1
      simp only [PrimExpr.visits, List.mem_append, List.mem_singleton] at h
      simp only [VisitExpr, bothNonNegative_eq]
      rcases h with (h | h) | h
      · exact isSome_assign _ _ (h2.1.2 _ (visits_recorded d root hwf a m hsa hc s h))
      · exact isSome_assign _ _ (visits_recorded d root hwf b _ hsb h1.1.1 s h)
      · subst h; simp [lookup_assign, PrimExpr.ptr]
  | .FloorModNode p a b, m, hs, hc, s, h => by
      have hsa : ∀ s ∈ a.nodes, s ∈ root.nodes := fun s h => hs s (by simp [PrimExpr.nodes, h])
      have hsb : ∀ s ∈ b.nodes, s ∈ root.nodes := fun s h => hs s (by simp [PrimExpr.nodes, h])
      have h1 := visit_spec d root hwf a m hsa hc
      have h2 := visit_spec d root hwf b _ hsb h1.1.1
      simp only [PrimExpr.visits, List.mem_append, List.mem_singleton] at h
      simp only [VisitExpr, MustNonNegative_eq]
      rcases h with (h | h) | h
      · exact isSome_assign _ _ (h2.1.2 _ (visits_recorded d root hwf a m hsa hc s h))
      · exact isSome_assign _ _ (visits_recorded d root hwf b _ hsb h1.1.1 s h)
      · subst h; simp [lookup_assign, PrimExpr.ptr]
  | .MinNode p a b, m, hs, hc, s, h => by
      have hsa : ∀ s ∈ a.nodes, s ∈ root.nodes := fun s h => hs s (by simp [PrimExpr.nodes, h])
      have hsb : ∀ s ∈ b.nodes, s ∈ root.nodes := fun s h => hs s (by simp [PrimExpr.nodes, h])
      have h1 := visit_spec d root hwf a m hsa hc
      have h2 := visit_spec d root hwf b _ hsb h1.1.1
      simp only [PrimExpr.visits, List.mem_append, List.mem_singleton] at h
      simp only [VisitExpr, bothNonNegative_eq]
      rcases h with (h | h) | h
      · exact isSome_assign _ _ (h2.1.2 _ (visits_recorded d root hwf a m hsa hc s h))
      · exact isSome_assign _ _ (visits_recorded d root hwf b _ hsb h1.1.1 s h)
      · subst h; simp [lookup_assign, PrimExpr.ptr]
  | .MaxNode p a b, m, hs, hc, s, h => by
      have hsa : ∀ s ∈ a.nodes, s ∈ root.nodes := fun s h => hs s (by simp [PrimExpr.nodes, h])
      have hsb : ∀ s ∈ b.nodes, s ∈ root.nodes := fun s h => hs s (by simp [PrimExpr.nodes, h])
      have h1 := visit_spec d root hwf a m hsa hc
      have h2 := visit_spec d root hwf b _ hsb h1.1.1
      simp only [PrimExpr.visits, List.mem_append, List.mem_singleton] at h
      simp only [VisitExpr, bothNonNegative_eq]
      rcases h with (h | h) | h
      · exact isSome_assign _ _ (h2.1.2 _ (visits_recorded d root hwf a m hsa hc s h))
      · exact isSome_assign _ _ (visits_recorded d root hwf b _ hsb h1.1.1 s h)
      · subst h; simp [lookup_assign, PrimExpr.ptr]
  | .AndNode p a b, m, _, _, s, h => by
      simp only [PrimExpr.visits, List.mem_singleton] at h
      subst h; simp [VisitExpr, lookup_assign, PrimExpr.ptr]
  | .OrNode p a b, m, _, _, s, h => by
      simp only [PrimExpr.visits, List.mem_singleton] at h
      subst h; simp [VisitExpr, lookup_assign, PrimExpr.ptr]
  | .OtherNode p es, m, hs, hc, s, h => by
      have hses : ∀ s ∈ nodesList es, s ∈ root.nodes :=
        fun s h => hs s (by simp [PrimExpr.nodes, h])
      cases d with
      | false => simp [PrimExpr.visits] at h
      | true =>
        simp only [PrimExpr.visits, if_true] at h
        simpa [VisitExpr] using visitsList_recorded true root hwf es m hses hc s h
theorem visitsList_recorded (d : Bool) (root : PrimExpr) (hwf : WellFormed root) :
    ∀ (es : List PrimExpr) (m : Cache), (∀ s ∈ nodesList es, s ∈ root.nodes) →
      Consistent root m →
      ∀ s ∈ visitsList d es, (List.lookup s.ptr (VisitExprs d es m)).isSome = true
  | [], m, _, _, s, h => by simp [visitsList] at h
  | e :: es, m, hs, hc, s, h => by
      have hse : ∀ s ∈ e.nodes, s ∈ root.nodes := fun s h => hs s (by simp [nodesList, h])
      have hses : ∀ s ∈ nodesList es, s ∈ root.nodes :=
        fun s h => hs s (by simp [nodesList, h])
      have h1 := visit_spec d root hwf e m hse hc
      have h2 := visits_spec d root hwf es _ hses h1.1.1
      simp only [visitsList, List.mem_append] at h
      simp only [VisitExprs]
      rcases h with h | h
      · exact h2.2 _ (visits_recorded d root hwf e m hse hc s h)
      · exact visitsList_recorded d root hwf es _ hses h1.1.1 s h
end

mutual
theorem trace_faithful (d : Bool) (root : PrimExpr) (hwf : WellFormed root) :
    ∀ (e : PrimExpr) (m : Cache), (∀ s ∈ e.nodes, s ∈ root.nodes) → Consistent root m →
      ∀ ev ∈ (VisitExprT d e m).2, ∃ s ∈ root.nodes, s.ptr = ev.key ∧ ev.value = nn s
  | .VarNode p x, m, hs, _, ev, h => by
      simp only [VisitExprT, List.mem_singleton] at h
      exact ⟨_, hs _ (mem_nodes_self _), by simp [h, Event.key, PrimExpr.ptr],
        by simp [h, Event.value, nn]⟩
  | .SizeVarNode p x, m, hs, _, ev, h => by
      simp only [VisitExprT, List.mem_singleton] at h
      exact ⟨_, hs _ (mem_nodes_self _), by simp [h, Event.key, PrimExpr.ptr],
        by simp [h, Event.value, nn]⟩
  | .IntImmNode p x, m, hs, _, ev, h => by
      simp only [VisitExprT, List.mem_singleton] at h
      exact ⟨_, hs _ (mem_nodes_self _), by simp [h, Event.key, PrimExpr.ptr],
        by simp [h, Event.value, nn]⟩
  | .FloatImmNode p x, m, hs, _, ev, h => by
      simp only [VisitExprT, List.mem_singleton] at h
      exact ⟨_, hs _ (mem_nodes_self _), by simp [h, Event.key, PrimExpr.ptr],
        by simp [h, Event.value, nn]⟩
  | .AddNode p a b, m, hs, hc, ev, h => by
      have hsa : ∀ s ∈ a.nodes, s ∈ root.nodes := fun s h => hs s (by simp [PrimExpr.nodes, h])
      have hsb : ∀ s ∈ b.nodes, s ∈ root.nodes := fun s h => hs s (by simp [PrimExpr.nodes, h])
      have h1 := visit_spec d root hwf a m hsa hc
      have h2 := visit_spec d root hwf b _ hsb h1.1.1
      obtain ⟨-, ra, rb⟩ :=
        operands_read (hsa _ (mem_nodes_self _)) (hsb _ (mem_nodes_self _)) h1 h2
      simp only [VisitExprT, VisitExprT_fst, List.mem_append, List.mem_singleton] at h
      rcases h with ((h | h) | h) | h
      · exact trace_faithful d root hwf a m hsa hc ev h
      · exact trace_faithful d root hwf b _ hsb h1.1.1 ev h
      · rcases bothNonNegativeT_events a b _ ev h with h | h
        · exact ⟨a, hsa _ (mem_nodes_self _), by simp [h, Event.key], by simp [h, Event.value, ra]⟩
        · exact ⟨b, hsb _ (mem_nodes_self _), by simp [h, Event.key], by simp [h, Event.value, rb]⟩
      · exact ⟨_, hs _ (mem_nodes_self _), by simp [h, Event.key, PrimExpr.ptr],
          by simp [h, Event.value, bothNonNegativeT_fst, bothNonNegative_eq, nn, ra, rb]⟩
  | .SubNode p a b, m, hs, _, ev, h => by
      simp only [VisitExprT, List.mem_singleton] at h
      exact ⟨_, hs _ (mem_nodes_self _), by simp [h, Event.key, PrimExpr.ptr],
        by simp [h, Event.value, nn]⟩
  | .MulNode p a b, m, hs, hc, ev, h => by
      have hsa : ∀ s ∈ a.nodes, s ∈ root.nodes := fun s h => hs s (by simp [PrimExpr.nodes, h])
      have hsb : ∀ s ∈ b.nodes, s ∈ root.nodes := fun s h => hs s (by simp [PrimExpr.nodes, h])
      have h1 := visit_spec d root hwf a m hsa hc
      have h2 := visit_spec d root hwf b _ hsb h1.1.1
      obtain ⟨-, ra, rb⟩ :=
        operands_read (hsa _ (mem_nodes_self _)) (hsb _ (mem_nodes_self _)) h1 h2
      simp only [VisitExprT, VisitExprT_fst, List.mem_append, List.mem_singleton] at h
      rcases h with ((h | h) | h) | h
      · exact trace_faithful d root hwf a m hsa hc ev h
      · exact trace_faithful d root hwf b _ hsb h1.1.1 ev h
      · rcases bothNonNegativeT_events a b _ ev h with h | h
        · exact ⟨a, hsa _ (mem_nodes_self _), by simp [h, Event.key], by simp [h, Event.value, ra]⟩
        · exact ⟨b, hsb _ (mem_nodes_self _), by simp [h, Event.key], by simp [h, Event.value, rb]⟩
      · exact ⟨_, hs _ (mem_nodes_self _), by simp [h, Event.key, PrimExpr.ptr],
          by simp [h, Event.value, bothNonNegativeT_fst, bothNonNegative_eq, nn, ra, rb]⟩
  | .DivNode p a b, m, hs, hc, ev, h => by
      have hsa : ∀ s ∈ a.nodes, s ∈ root.nodes := fun s h => hs s (by simp [PrimExpr.nodes, h])
      have hsb : ∀ s ∈ b.nodes, s ∈ root.nodes := fun s h => hs s (by simp [PrimExpr.nodes, h])
      have h1 := visit_spec d root hwf a m hsa hc
      have h2 := visit_spec d root hwf b _ hsb h1.1.1
      obtain ⟨-, ra, rb⟩ :=
        operands_read (hsa _ (mem_nodes_self _)) (hsb _ (mem_nodes_self _)) h1 h2
      simp only [VisitExprT, VisitExprT_fst, List.mem_append, List.mem_singleton] at h
      rcases h with ((h | h) | h) | h
      · exact trace_faithful d root hwf a m hsa hc ev h
      · exact trace_faithful d root hwf b _ hsb h1.1.1 ev h
      · rcases bothNonNegativeT_events a b _ ev h with h | h
        · exact ⟨a, hsa _ (mem_nodes_self _), by simp [h, Event.key], by simp [h, Event.value, ra]⟩
        · exact ⟨b, hsb _ (mem_nodes_self _), by simp [h, Event.key], by simp [h, Event.value, rb]⟩
      · exact ⟨_, hs _ (mem_nodes_self _), by simp [h, Event.key, PrimExpr.ptr],
          by simp [h, Event.value, bothNonNegativeT_fst, bothNonNegative_eq, nn, ra, rb]⟩
  | .ModNode p a b, m, hs, hc, ev, h => by
      have hsa : ∀ s ∈ a.nodes, s ∈ root.nodes := fun s h => hs s (by simp [PrimExpr.nodes, h])
      have hsb : ∀ s ∈ b.nodes, s ∈ root.nodes := fun s h => hs s (by simp [PrimExpr.nodes, h])
      have h1 := visit_spec d root hwf a m hsa hc
      have h2 := visit_spec d root hwf b _ hsb h1.1.1
      obtain ⟨-, ra, rb⟩ :=
        operands_read (hsa _ (mem_nodes_self _)) (hsb _ (mem_nodes_self _)) h1 h2
      simp only [VisitExprT, VisitExprT_fst, List.mem_append, List.mem_singleton] at h
      rcases h with ((h | h) | h) | h
      · exact trace_faithful d root hwf a m hsa hc ev h
      · exact trace_faithful d root hwf b _ hsb h1.1.1 ev h
      · simp only [MustNonNegativeT, MustNonNegative_eq, List.mem_singleton] at h
        exact ⟨b, hsb _ (mem_nodes_self _), by simp [h, Event.key], by simp [h, Event.value, rb]⟩
      · exact ⟨_, hs _ (mem_nodes_self _), by simp [h, Event.key, PrimExpr.ptr],
          by simp [h, Event.value, MustNonNegativeT_fst, MustNonNegative_eq, nn, ra, rb]⟩
  | .FloorDivNode p a b, m, hs, hc, ev, h => by
      have hsa : ∀ s ∈ a.nodes, s ∈ root.nodes := fun s h => hs s (by simp [PrimExpr.nodes, h])
      have hsb : ∀ s ∈ b.nodes, s ∈ root.nodes := fun s h => hs s (by simp [PrimExpr.nodes, h])
      have h1 := visit_spec d root hwf a m hsa hc
      have h2 := visit_spec d root hwf b _ hsb h1.1.1
      obtain ⟨-, ra, rb⟩ :=
        operands_read (hsa _ (mem_nodes_self _)) (hsb _ (mem_nodes_self _)) h1 h2
      simp only [VisitExprT, VisitExprT_fst, List.mem_append, List.mem_singleton] at h
      rcases h with ((h | h) | h) | h
      · exact trace_faithful d root hwf a m hsa hc ev h
      · exact trace_faithful d root hwf b _ hsb h1.1.1 ev h
      · rcases bothNonNegativeT_events a b _ ev h with h | h
        · exact ⟨a, hsa _ (mem_nodes_self _), by simp [h, Event.key], by simp [h, Event.value, ra]⟩
        · exact ⟨b, hsb _ (mem_nodes_self _), by simp [h, Event.key], by simp [h, Event.value, rb]⟩
      · exact ⟨_, hs _ (mem_nodes_self _), by simp [h, Event.key, PrimExpr.ptr],
          by simp [h, Event.value, bothNonNegativeT_fst, bothNonNegative_eq, nn, ra, rb]⟩
  | .FloorModNode p a b, m, hs, hc, ev, h => by
      have hsa : ∀ s ∈ a.nodes, s ∈ root.nodes := fun s h => hs s (by simp [PrimExpr.nodes, h])
      have hsb : ∀ s ∈ b.nodes, s ∈ root.nodes := fun s h => hs s (by simp [PrimExpr.nodes, h])
      have h1 := visit_spec d root hwf a m hsa hc
      have h2 := visit_spec d root hwf b _ hsb h1.1.1
      obtain ⟨-, ra, rb⟩ :=
        operands_read (hsa _ (mem_nodes_self _)) (hsb _ (mem_nodes_self _)) h1 h2
      simp only [VisitExprT, VisitExprT_fst, List.mem_append, List.mem_singleton] at h
      rcases h with ((h | h) | h) | h
      · exact trace_faithful d root hwf a m hsa hc ev h
      · exact trace_faithful d root hwf b _ hsb h1.1.1 ev h
      · simp only [MustNonNegativeT, MustNonNegative_eq, List.mem_singleton] at h
        exact ⟨b, hsb _ (mem_nodes_self _), by simp [h, Event.key], by simp [h, Event.value, rb]⟩
      · exact ⟨_, hs _ (mem_nodes_self _), by simp [h, Event.key, PrimExpr.ptr],
          by simp [h, Event.value, MustNonNegativeT_fst, MustNonNegative_eq, nn, ra, rb]⟩
  | .MinNode p a b, m, hs, hc, ev, h => by
      have hsa : ∀ s ∈ a.nodes, s ∈ root.nodes := fun s h => hs s (by simp [PrimExpr.nodes, h])
      have hsb : ∀ s ∈ b.nodes, s ∈ root.nodes := fun s h => hs s (by simp [PrimExpr.nodes, h])
      have h1 := visit_spec d root hwf a m hsa hc
      have h2 := visit_spec d root hwf b _ hsb h1.1.1
      obtain ⟨-, ra, rb⟩ :=
        operands_read (hsa _ (mem_nodes_self _)) (hsb _ (mem_nodes_self _)) h1 h2
      simp only [VisitExprT, VisitExprT_fst, List.mem_append, List.mem_singleton] at h
      rcases h with ((h | h) | h) | h
      · exact trace_faithful d root hwf a m hsa hc ev h
      · exact trace_faithful d root hwf b _ hsb h1.1.1 ev h
      · rcases bothNonNegativeT_events a b _ ev h with h | h
        · exact ⟨a, hsa _ (mem_nodes_self _), by simp [h, Event.key], by simp [h, Event.value, ra]⟩
        · exact ⟨b, hsb _ (mem_nodes_self _), by simp [h, Event.key], by simp [h, Event.value, rb]⟩
      · exact ⟨_, hs _ (mem_nodes_self _), by simp [h, Event.key, PrimExpr.ptr],
          by simp [h, Event.value, bothNonNegativeT_fst, bothNonNegative_eq, nn, ra, rb]⟩
  | .MaxNode p a b, m, hs, hc, ev, h => by
      have hsa : ∀ s ∈ a.nodes, s ∈ root.nodes := fun s h => hs s (by simp [PrimExpr.nodes, h])
      have hsb : ∀ s ∈ b.nodes, s ∈ root.nodes := fun s h => hs s (by simp [PrimExpr.nodes, h])
      have h1 := visit_spec d root hwf a m hsa hc
      have h2 := visit_spec d root hwf b _ hsb h1.1.1
      obtain ⟨-, ra, rb⟩ :=
        operands_read (hsa _ (mem_nodes_self _)) (hsb _ (mem_nodes_self _)) h1 h2
      simp only [VisitExprT, VisitExprT_fst, List.mem_append, List.mem_singleton] at h
      rcases h with ((h | h) | h) | h
      · exact trace_faithful d root hwf a m hsa hc ev h
      · exact trace_faithful d root hwf b _ hsb h1.1.1 ev h
      · rcases bothNonNegativeT_events a b _ ev h with h | h
        · exact ⟨a, hsa _ (mem_nodes_self _), by simp [h, Event.key], by simp [h, Event.value, ra]⟩
        · exact ⟨b, hsb _ (mem_nodes_self _), by simp [h, Event.key], by simp [h, Event.value, rb]⟩
      · exact ⟨_, hs _ (mem_nodes_self _), by simp [h, Event.key, PrimExpr.ptr],
          by simp [h, Event.value, bothNonNegativeT_fst, bothNonNegative_eq, nn, ra, rb]⟩
  | .AndNode p a b, m, hs, _, ev, h => by
      simp only [VisitExprT, List.mem_singleton] at h
      exact ⟨_, hs _ (mem_nodes_self _), by simp [h, Event.key, PrimExpr.ptr],
        by simp [h, Event.value, nn]⟩
  | .OrNode p a b, m, hs, _, ev, h => by
      simp only [VisitExprT, List.mem_singleton] at h
      exact ⟨_, hs _ (mem_nodes_self _), by simp [h, Event.key, PrimExpr.ptr],
        by simp [h, Event.value, nn]⟩
  | .OtherNode p es, m, hs, hc, ev, h => by
      have hses : ∀ s ∈ nodesList es, s ∈ root.nodes :=
        fun s h => hs s (by simp [PrimExpr.nodes, h])
      cases d with
      | false => simp [VisitExprT] at h
      | true =>
        simp only [VisitExprT, if_true] at h
        exact traceList_faithful true root hwf es m hses hc ev h
theorem traceList_faithful (d : Bool) (root : PrimExpr) (hwf : WellFormed root) :
    ∀ (es : List PrimExpr) (m : Cache), (∀ s ∈ nodesList es, s ∈ root.nodes) →
      Consistent root m →
      ∀ ev ∈ (VisitExprsT d es m).2, ∃ s ∈ root.nodes, s.ptr = ev.key ∧ ev.value = nn s
  | [], m, _, _, ev, h => by simp [VisitExprsT] at h
  | e :: es, m, hs, hc, ev, h => by
      have hse : ∀ s ∈ e.nodes, s ∈ root.nodes := fun s h => hs s (by simp [nodesList, h])
      have hses : ∀ s ∈ nodesList es, s ∈ root.nodes :=
        fun s h => hs s (by simp [nodesList, h])
      have h1 := visit_spec d root hwf e m hse hc
      simp only [VisitExprsT, VisitExprT_fst, List.mem_append] at h
      rcases h with h | h
      · exact trace_faithful d root hwf e m hse hc ev h
      · exact traceList_faithful d root hwf es _ hses h1.1.1 ev h
end

/-- Every operation of a `Check` call on a well-formed DAG stores or returns
the rule-table verdict of the node at its address. -/
theorem CheckT_faithful (d : Bool) (e : PrimExpr) (m : Cache) (hwf : WellFormed e) :
    ∀ ev ∈ (CheckT d e m).2, ∃ s ∈ e.nodes, s.ptr = ev.key ∧ ev.value = nn s := by
  intro ev h
  have hv := visit_spec d e hwf e [] (fun _ hs => hs) (Consistent.nil e)
  simp only [CheckT, Cache.clear, VisitExprT_fst, MustNonNegativeT, MustNonNegative_eq,
    List.mem_append, List.mem_singleton] at h
  rcases h with h | h
  · exact trace_faithful d e hwf e [] (fun _ hs => hs) (Consistent.nil e) ev h
  · refine ⟨e, mem_nodes_self e, by simp [h, Event.key], ?_⟩
    simp only [h, Event.value]
    exact read_eq hv.1.1 (mem_nodes_self e) fun hr => by simp [hv.2 hr]

/-! ## The recursion on a bounded call stack returns when the stack is deep enough -/

theorem descend_step {α β : Type} (da db stack : Nat) (x : α) (f : α → α) (g : α → β) :
    (if stack = 0 then none
      else (if da ≤ stack - 1 then some x else none).bind fun m1 =>
        (if db ≤ stack - 1 then some (f m1) else none).bind fun m2 => some (g m2)) =
      if max da db + 1 ≤ stack then some (g (f x)) else none := by
  have key : max da db + 1 ≤ stack ↔ stack ≠ 0 ∧ da ≤ stack - 1 ∧ db ≤ stack - 1 := by
    omega
  by_cases h0 : stack = 0
  · simp [key, h0]
  · by_cases h1 : da ≤ stack - 1 <;> by_cases h2 : db ≤ stack - 1 <;>
      simp [key, h0, h1, h2]

mutual
theorem VisitExprD_eq (d : Bool) : ∀ (e : PrimExpr) (stack : Nat) (m : Cache),
    VisitExprD d e stack m = if e.depth d ≤ stack then some (VisitExpr d e m) else none
  | .VarNode p x, stack, m => by
      simp only [VisitExprD, VisitExpr, PrimExpr.depth]
      by_cases h : stack = 0
      · simp [h]
      · simp [h, Nat.one_le_iff_ne_zero]
  | .SizeVarNode p x, stack, m => by
      simp only [VisitExprD, VisitExpr, PrimExpr.depth]
      by_cases h : stack = 0
      · simp [h]
      · simp [h, Nat.one_le_iff_ne_zero]
  | .IntImmNode p x, stack, m => by
      simp only [VisitExprD, VisitExpr, PrimExpr.depth]
      by_cases h : stack = 0
      · simp [h]
      · simp [h, Nat.one_le_iff_ne_zero]
  | .FloatImmNode p x, stack, m => by
      simp only [VisitExprD, VisitExpr, PrimExpr.depth]
      by_cases h : stack = 0
      · simp [h]
      · simp [h, Nat.one_le_iff_ne_zero]
  | .AddNode p a b, stack, m => by
      have ha := VisitExprD_eq d a (stack - 1)
      have hb := VisitExprD_eq d b (stack - 1)
      simp only [VisitExprD, VisitExpr, PrimExpr.depth, ha, hb]
      exact descend_step (a.depth d) (b.depth d) stack (VisitExpr d a m) (VisitExpr d b) _
  | .SubNode p a b, stack, m => by
      simp only [VisitExprD, VisitExpr, PrimExpr.depth]
      by_cases h : stack = 0
      · simp [h]
      · simp [h, Nat.one_le_iff_ne_zero]
  | .MulNode p a b, stack, m => by
      have ha := VisitExprD_eq d a (stack - 1)
      have hb := VisitExprD_eq d b (stack - 1)
      simp only [VisitExprD, VisitExpr, PrimExpr.depth, ha, hb]
      exact descend_step (a.depth d) (b.depth d) stack (VisitExpr d a m) (VisitExpr d b) _
  | .DivNode p a b, stack, m => by
      have ha := VisitExprD_eq d a (stack - 1)
      have hb := VisitExprD_eq d b (stack - 1)
      simp only [VisitExprD, VisitExpr, PrimExpr.depth, ha, hb]
      exact descend_step (a.depth d) (b.depth d) stack (VisitExpr d a m) (VisitExpr d b) _
  | .ModNode p a b, stack, m => by
      have ha := VisitExprD_eq d a (stack - 1)
      have hb := VisitExprD_eq d b (stack - 1)
      simp only [VisitExprD, VisitExpr, PrimExpr.depth, ha, hb]
      exact descend_step (a.depth d) (b.depth d) stack (VisitExpr d a m) (VisitExpr d b) _
  | .FloorDivNode p a b, stack, m => by
      have ha := VisitExprD_eq d a (stack - 1)
      have hb := VisitExprD_eq d b (stack - 1)
      simp only [VisitExprD, VisitExpr, PrimExpr.depth, ha, hb]
      exact descend_step (a.depth d) (b.depth d) stack (VisitExpr d a m) (VisitExpr d b) _
  | .FloorModNode p a b, stack, m => by
      have ha := VisitExprD_eq d a (stack - 1)
      have hb := VisitExprD_eq d b (stack - 1)
      simp only [VisitExprD, VisitExpr, PrimExpr.depth, ha, hb]
      exact descend_step (a.depth d) (b.depth d) stack (VisitExpr d a m) (VisitExpr d b) _
  | .MinNode p a b, stack, m => by
      have ha := VisitExprD_eq d a (stack - 1)
      have hb := VisitExprD_eq d b (stack - 1)
      simp only [VisitExprD, VisitExpr, PrimExpr.depth, ha, hb]
      exact descend_step (a.depth d) (b.depth d) stack (VisitExpr d a m) (VisitExpr d b) _
  | .MaxNode p a b, stack, m => by
      have ha := VisitExprD_eq d a (stack - 1)
      have hb := VisitExprD_eq d b (stack - 1)
      simp only [VisitExprD, VisitExpr, PrimExpr.depth, ha, hb]
      exact descend_step (a.depth d) (b.depth d) stack (VisitExpr d a m) (VisitExpr d b) _
  | .AndNode p a b, stack, m => by
      simp only [VisitExprD, VisitExpr, PrimExpr.depth]
      by_cases h : stack = 0
      · simp [h]
      · simp [h, Nat.one_le_iff_ne_zero]
  | .OrNode p a b, stack, m => by
      simp only [VisitExprD, VisitExpr, PrimExpr.depth]
      by_cases h : stack = 0
      · simp [h]
      · simp [h, Nat.one_le_iff_ne_zero]
  | .OtherNode p es, stack, m => by
      have hes := VisitExprsD_eq d es (stack - 1) m
      cases d with
      | false =>
        simp only [VisitExprD, VisitExpr, PrimExpr.depth]
        by_cases h : stack = 0
        · simp [h]
        · simp [h, Nat.one_le_iff_ne_zero]
      | true =>
        simp only [VisitExprD, VisitExpr, PrimExpr.depth, hes, if_true]
        by_cases h : stack = 0
        · simp [h]
        · have : depthList true es + 1 ≤ stack ↔ depthList true es ≤ stack - 1 := by omega
          simp [h, this]
theorem VisitExprsD_eq (d : Bool) : ∀ (es : List PrimExpr) (stack : Nat) (m : Cache),
    VisitExprsD d es stack m =
      if depthList d es ≤ stack then some (VisitExprs d es m) else none
  | [], stack, m => by simp [VisitExprsD, VisitExprs, depthList]
  | e :: es, stack, m => by
      have he := VisitExprD_eq d e stack
      have hes := VisitExprsD_eq d es stack
      simp only [VisitExprsD, VisitExprs, depthList, he, hes]
      by_cases h1 : e.depth d ≤ stack <;> by_cases h2 : depthList d es ≤ stack <;>
        simp [h1, h2]
end

/-- C12, as stated, fails: in `Add(x, x)` with one shared size variable `x` at
address 1, the verdict of `x` is written twice during one `Check` call, once
for each operand position, before the verdict of the root is written. -/
theorem shared_node_written_twice :
    WellFormed (.AddNode 0 (.SizeVarNode 1 "x") (.SizeVarNode 1 "x")) ∧
    writes (CheckT true (.AddNode 0 (.SizeVarNode 1 "x") (.SizeVarNode 1 "x")) []).2 =
      [(1, true), (1, true), (0, true)] ∧
    writes (CheckT false (.AddNode 0 (.SizeVarNode 1 "x") (.SizeVarNode 1 "x")) []).2 =
      [(1, true), (1, true), (0, true)] := by
  refine ⟨by decide, by decide, by decide⟩

/-- C12, amended: during one `Check` call on a well-formed DAG the verdict of a
node is written once for every visit of the node, in post-order (so at most
once per address when no visited node is reached twice), and all writes to one
address store the same verdict: a verdict, once written, never changes within
the call. -/
theorem writes_once_per_visit (descend : Bool) (e : PrimExpr) (m : Cache)
    (hwf : WellFormed e) :
    (writes (CheckT descend e m).2).map Prod.fst = (e.visits descend).map PrimExpr.ptr ∧
    (((e.visits descend).map PrimExpr.ptr).Nodup →
      ((writes (CheckT descend e m).2).map Prod.fst).Nodup) ∧
    (∀ (k : Nat) (v v' : Bool), (k, v) ∈ writes (CheckT descend e m).2 →
      (k, v') ∈ writes (CheckT descend e m).2 → v = v') := by
  have hk : (writes (CheckT descend e m).2).map Prod.fst =
      (e.visits descend).map PrimExpr.ptr := by
    simp only [CheckT, writes_append, writes_MustNonNegativeT, List.append_nil]
    exact writes_keys descend e _
  refine ⟨hk, fun h => hk ▸ h, fun k v v' h h' => ?_⟩
  obtain ⟨s, hs, hsk, hv⟩ := CheckT_faithful descend e m hwf _ (mem_writes h)
  obtain ⟨s', hs', hsk', hv'⟩ := CheckT_faithful descend e m hwf _ (mem_writes h')
  simp only [Event.key, Event.value] at hsk hv hsk' hv'
  rw [hv, hv', hwf s hs s' hs' (hsk.trans hsk'.symm)]

theorem writes_once_per_visit_witness :
    WellFormed (.AddNode 0 (.MulNode 1 (.SizeVarNode 2 "x") (.VarNode 3 "v"))
      (.SizeVarNode 2 "x")) ∧
    ((writes (CheckT true (.AddNode 0 (.MulNode 1 (.SizeVarNode 2 "x") (.VarNode 3 "v"))
      (.SizeVarNode 2 "x")) []).2).map Prod.fst =
      ((PrimExpr.AddNode 0 (.MulNode 1 (.SizeVarNode 2 "x") (.VarNode 3 "v"))
        (.SizeVarNode 2 "x")).visits true).map PrimExpr.ptr ∧
    ((((PrimExpr.AddNode 0 (.MulNode 1 (.SizeVarNode 2 "x") (.VarNode 3 "v"))
        (.SizeVarNode 2 "x")).visits true).map PrimExpr.ptr).Nodup →
      ((writes (CheckT true (.AddNode 0 (.MulNode 1 (.SizeVarNode 2 "x") (.VarNode 3 "v"))
        (.SizeVarNode 2 "x")) []).2).map Prod.fst).Nodup) ∧
    (∀ (k : Nat) (v v' : Bool),
      (k, v) ∈ writes (CheckT true (.AddNode 0 (.MulNode 1 (.SizeVarNode 2 "x")
        (.VarNode 3 "v")) (.SizeVarNode 2 "x")) []).2 →
      (k, v') ∈ writes (CheckT true (.AddNode 0 (.MulNode 1 (.SizeVarNode 2 "x")
        (.VarNode 3 "v")) (.SizeVarNode 2 "x")) []).2 → v = v')) :=
  ⟨by decide, writes_once_per_visit true _ [] (by decide)⟩

/-- C13: the rule of `Max` is incomplete.  For a size variable `s` and a
variable `v`, `Check (Max s v)` is false, although under every assignment that
gives the size variable a value that is not negative the value of `Max(s, v)`
is defined and not negative. -/
theorem Max_rule_incomplete (descend : Bool) (pm ps pv : Nat) (ns nv : String) (m : Cache)
    (σ : Nat → Int)
    (hσ : SizeVarsNonNegative σ (.MaxNode pm (.SizeVarNode ps ns) (.VarNode pv nv))) :
    (Check descend (.MaxNode pm (.SizeVarNode ps ns) (.VarNode pv nv)) m).1 = false ∧
    ∃ x, eval σ (.MaxNode pm (.SizeVarNode ps ns) (.VarNode pv nv)) = some x ∧ 0 ≤ x := by
  constructor
  · simp only [Check, VisitExpr, bothNonNegative_eq, MustNonNegative_eq, Cache.clear,
      lookup_assign, PrimExpr.ptr]
    split_ifs <;> simp_all
  · refine ⟨max (σ ps) (σ pv), by simp [eval], le_max_of_le_left ?_⟩
    exact hσ (.SizeVarNode ps ns) (by simp [PrimExpr.nodes]) rfl

theorem Max_rule_incomplete_witness :
    SizeVarsNonNegative (fun p => if p = 1 then 3 else -7)
      (.MaxNode 0 (.SizeVarNode 1 "s") (.VarNode 2 "v")) ∧
    (Check true (.MaxNode 0 (.SizeVarNode 1 "s") (.VarNode 2 "v")) []).1 = false ∧
    ∃ x, eval (fun p => if p = 1 then 3 else -7)
      (.MaxNode 0 (.SizeVarNode 1 "s") (.VarNode 2 "v")) = some x ∧ 0 ≤ x :=
  ⟨by decide, Max_rule_incomplete true 0 1 2 "s" "v" [] _ (by decide)⟩

/-- C14: the kinds that do not descend leave their operands unvisited.  After
`Check` on `And(a, b)`, `Or(a, b)` or `Sub(a, b)` the map holds exactly one
entry, that of the root: true for `And` and `Or`, false for `Sub`. -/
theorem Check_nondescending_cache (descend : Bool) (p : Nat) (a b : PrimExpr) (m : Cache) :
    (Check descend (.AndNode p a b) m).2 = [(p, true)] ∧
    (Check descend (.OrNode p a b) m).2 = [(p, true)] ∧
    (Check descend (.SubNode p a b) m).2 = [(p, false)] := by
  simp [Check, VisitExpr, MustNonNegative_eq, Cache.clear, Cache.assign]

/-- C15: the verdict lookup.  For every map and every node, `MustNonNegative`
returns true if and only if the map holds an entry for the address of the node
and that entry is true (a missing entry and a recorded false both give false),
and the map is left as it was: no entry is inserted for a missing key. -/
theorem MustNonNegative_lookup (n : PrimExpr) (m : Cache) :
    ((MustNonNegative n m).1 = true ↔ List.lookup n.ptr m = some true) ∧
    (MustNonNegative n m).1 = (decide (m.count n.ptr ≠ 0) && (m.index n.ptr).1) ∧
    (MustNonNegative n m).2 = m := by
  rw [MustNonNegative_eq]
  refine ⟨by simp, ?_, rfl⟩
  unfold Cache.count Cache.index
  cases h : List.lookup n.ptr m with
  | none => simp
  | some v => cases v <;> simp

/-- C16, as stated, fails for literals the traversal does not reach: in
`And(0, 0)` with two literal nodes of value 0 at the addresses 1 and 2, neither
literal has an entry in the map after `Check`, since `And` does not descend
into its operands. -/
theorem literals_below_And_not_recorded :
    WellFormed (.AndNode 0 (.IntImmNode 1 0) (.IntImmNode 2 0)) ∧
    List.lookup 1 (Check true (.AndNode 0 (.IntImmNode 1 0) (.IntImmNode 2 0)) []).2 = none ∧
    List.lookup 2 (Check true (.AndNode 0 (.IntImmNode 1 0) (.IntImmNode 2 0)) []).2 = none ∧
    List.lookup 1 (Check false (.AndNode 0 (.IntImmNode 1 0) (.IntImmNode 2 0)) []).2 = none ∧
    List.lookup 2 (Check false (.AndNode 0 (.IntImmNode 1 0) (.IntImmNode 2 0)) []).2 = none := by
  refine ⟨by decide, by decide, by decide, by decide, by decide⟩

/-- C16, amended: sharing invariance.  On well-formed DAGs `Check` depends on the tree
the DAG unfolds to only: two DAGs with the same unfolding, whether equal
sub-expressions are one shared node or separately constructed nodes, get the
same result.  And two literal nodes of equal value at distinct addresses that
the traversal visits each have their own entry in the map after the call, with
verdict `v >= 0`. -/
theorem Check_sharing_invariant (descend : Bool) (e1 : PrimExpr) (m1 : Cache)
    (hwf1 : WellFormed e1) :
    (∀ (e2 : PrimExpr) (m2 : Cache), WellFormed e2 → e1.shape = e2.shape →
      (Check descend e1 m1).1 = (Check descend e2 m2).1) ∧
    (∀ (p1 p2 : Nat) (v : Int), p1 ≠ p2 →
      PrimExpr.IntImmNode p1 v ∈ e1.visits descend →
      PrimExpr.IntImmNode p2 v ∈ e1.visits descend →
      List.lookup p1 (Check descend e1 m1).2 = some (decide (v ≥ 0)) ∧
      List.lookup p2 (Check descend e1 m1).2 = some (decide (v ≥ 0))) := by
  constructor
  · intro e2 m2 hwf2 hs
    rw [Check_fst descend e1 m1 hwf1, Check_fst descend e2 m2 hwf2, ← nn_shape e1, hs,
      nn_shape e2]
  · have hv := visit_spec descend e1 hwf1 e1 [] (fun _ hs => hs) (Consistent.nil e1)
    have key : ∀ s ∈ e1.visits descend,
        List.lookup s.ptr (Check descend e1 m1).2 = some (nn s) := by
      intro s hs
      have hsome := visits_recorded descend e1 hwf1 e1 [] (fun _ h => h) (Consistent.nil e1) s hs
      simp only [Check, Cache.clear, MustNonNegative_eq]
      cases hl : List.lookup s.ptr (VisitExpr descend e1 []) with
      | none => simp [hl] at hsome
      | some w => rw [hv.1.1 s (visits_subset_nodes descend e1 s hs) w hl]
    intro p1 p2 v _ h1 h2
    exact ⟨key _ h1, key _ h2⟩

theorem Check_sharing_invariant_witness :
    (WellFormed (.AddNode 0 (.SizeVarNode 1 "x") (.SizeVarNode 1 "x")) ∧
      WellFormed (.AddNode 5 (.SizeVarNode 6 "x") (.SizeVarNode 7 "x")) ∧
      (PrimExpr.AddNode 0 (.SizeVarNode 1 "x") (.SizeVarNode 1 "x")).shape =
        (PrimExpr.AddNode 5 (.SizeVarNode 6 "x") (.SizeVarNode 7 "x")).shape ∧
      (Check true (.AddNode 0 (.SizeVarNode 1 "x") (.SizeVarNode 1 "x")) []).1 =
        (Check true (.AddNode 5 (.SizeVarNode 6 "x") (.SizeVarNode 7 "x")) []).1) ∧
    (WellFormed (.AddNode 0 (.IntImmNode 1 0) (.IntImmNode 2 0)) ∧
      List.lookup 1 (Check true (.AddNode 0 (.IntImmNode 1 0) (.IntImmNode 2 0)) []).2 =
        some (decide ((0 : Int) ≥ 0)) ∧
      List.lookup 2 (Check true (.AddNode 0 (.IntImmNode 1 0) (.IntImmNode 2 0)) []).2 =
        some (decide ((0 : Int) ≥ 0))) :=
  ⟨⟨by decide, by decide, by decide,
      (Check_sharing_invariant true _ [] (by decide)).1 _ [] (by decide) (by decide)⟩,
    ⟨by decide,
      (Check_sharing_invariant true (.AddNode 0 (.IntImmNode 1 0) (.IntImmNode 2 0)) []
        (by decide)).2 1 2 0 (by decide) (by decide) (by decide)⟩⟩

/-- C17: soundness without the truncating remainder.  For a well-formed
expression with no `Mod` node and an assignment that gives every size variable
a value that is not negative and under which the expression has a value (no
divisor is 0, no float constant and no unrecognized kind is met), a true
result of `Check` implies that the value is not negative. -/
theorem Check_sound_modFree (descend : Bool) (e : PrimExpr) (m : Cache) (σ : Nat → Int)
    (x : Int) (hwf : WellFormed e) (hmf : e.modFree = true) (hσ : SizeVarsNonNegative σ e)
    (hx : eval σ e = some x) (hc : (Check descend e m).1 = true) : 0 ≤ x := by
  rw [Check_fst descend e m hwf] at hc
  exact nn_sound σ e x hσ hmf hx hc

theorem Check_sound_modFree_witness :
    WellFormed (.AddNode 0 (.FloorModNode 1 (.VarNode 2 "v") (.SizeVarNode 3 "n"))
      (.IntImmNode 4 5)) ∧
    (PrimExpr.AddNode 0 (.FloorModNode 1 (.VarNode 2 "v") (.SizeVarNode 3 "n"))
      (.IntImmNode 4 5)).modFree = true ∧
    SizeVarsNonNegative (fun p => if p = 2 then -7 else 3)
      (.AddNode 0 (.FloorModNode 1 (.VarNode 2 "v") (.SizeVarNode 3 "n")) (.IntImmNode 4 5)) ∧
    eval (fun p => if p = 2 then -7 else 3)
      (.AddNode 0 (.FloorModNode 1 (.VarNode 2 "v") (.SizeVarNode 3 "n")) (.IntImmNode 4 5)) =
      some 7 ∧
    (Check true (.AddNode 0 (.FloorModNode 1 (.VarNode 2 "v") (.SizeVarNode 3 "n"))
      (.IntImmNode 4 5)) []).1 = true ∧
    (0 : Int) ≤ 7 :=
  ⟨by decide, by decide, by decide, by decide, by decide,
    Check_sound_modFree true
      (.AddNode 0 (.FloorModNode 1 (.VarNode 2 "v") (.SizeVarNode 3 "n")) (.IntImmNode 4 5)) []
      (fun p => if p = 2 then -7 else 3) 7 (by decide) (by decide) (by decide) (by decide)
      (by decide)⟩

/-- C18: write stability.  Every map operation of a `Check` call on a
well-formed DAG is about the address of a node of the DAG, and the verdict it
stores (a write) or returns (a read by a parent or by `Check`) is the
rule-table verdict of that node; so all writes to the entry of a shared node
store the same boolean. -/
theorem write_stability (descend : Bool) (e : PrimExpr) (m : Cache) (hwf : WellFormed e) :
    ∀ ev ∈ (CheckT descend e m).2,
      (∃ s ∈ e.nodes, s.ptr = ev.key) ∧ (∀ s ∈ e.nodes, s.ptr = ev.key → ev.value = nn s) := by
  intro ev hev
  obtain ⟨s, hs, hk, hv⟩ := CheckT_faithful descend e m hwf ev hev
  exact ⟨⟨s, hs, hk⟩, fun t ht htk => by rw [hv, hwf s hs t ht (hk.trans htk.symm)]⟩

theorem write_stability_witness :
    WellFormed (.AddNode 0 (.MulNode 1 (.SizeVarNode 2 "x") (.VarNode 3 "v"))
      (.SizeVarNode 2 "x")) ∧
    ∀ ev ∈ (CheckT true (.AddNode 0 (.MulNode 1 (.SizeVarNode 2 "x") (.VarNode 3 "v"))
        (.SizeVarNode 2 "x")) []).2,
      (∃ s ∈ (PrimExpr.AddNode 0 (.MulNode 1 (.SizeVarNode 2 "x") (.VarNode 3 "v"))
        (.SizeVarNode 2 "x")).nodes, s.ptr = ev.key) ∧
      (∀ s ∈ (PrimExpr.AddNode 0 (.MulNode 1 (.SizeVarNode 2 "x") (.VarNode 3 "v"))
        (.SizeVarNode 2 "x")).nodes, s.ptr = ev.key → ev.value = nn s) :=
  ⟨by decide, write_stability true _ [] (by decide)⟩

/-- C19: monotonicity in the leaves.  If `e'` is obtained from `e` by replacing
`Var` leaves by `SizeVar` leaves and negative integer constants by non-negative
ones, both well-formed, then `Check e = true` implies `Check e' = true`. -/
theorem Check_monotone (descend : Bool) (e e' : PrimExpr) (m m' : Cache) (hwf : WellFormed e)
    (hwf' : WellFormed e') (hup : e.upgradesTo e' = true)
    (hc : (Check descend e m).1 = true) : (Check descend e' m').1 = true := by
  rw [Check_fst descend e m hwf] at hc
  rw [Check_fst descend e' m' hwf']
  exact nn_upgrades e e' hup hc

theorem Check_monotone_witness :
    WellFormed (.AddNode 0 (.FloorModNode 1 (.VarNode 2 "v") (.SizeVarNode 3 "n"))
      (.OrNode 4 (.IntImmNode 5 (-1)) (.VarNode 2 "v"))) ∧
    WellFormed (.AddNode 10 (.FloorModNode 11 (.SizeVarNode 12 "s") (.SizeVarNode 13 "n"))
      (.OrNode 14 (.IntImmNode 15 4) (.SizeVarNode 12 "s"))) ∧
    (PrimExpr.AddNode 0 (.FloorModNode 1 (.VarNode 2 "v") (.SizeVarNode 3 "n"))
      (.OrNode 4 (.IntImmNode 5 (-1)) (.VarNode 2 "v"))).upgradesTo
      (.AddNode 10 (.FloorModNode 11 (.SizeVarNode 12 "s") (.SizeVarNode 13 "n"))
        (.OrNode 14 (.IntImmNode 15 4) (.SizeVarNode 12 "s"))) = true ∧
    (Check true (.AddNode 0 (.FloorModNode 1 (.VarNode 2 "v") (.SizeVarNode 3 "n"))
      (.OrNode 4 (.IntImmNode 5 (-1)) (.VarNode 2 "v"))) []).1 = true ∧
    (Check true (.AddNode 10 (.FloorModNode 11 (.SizeVarNode 12 "s") (.SizeVarNode 13 "n"))
      (.OrNode 14 (.IntImmNode 15 4) (.SizeVarNode 12 "s"))) []).1 = true :=
  ⟨by decide, by decide, by decide, by decide,
    Check_monotone true
      (.AddNode 0 (.FloorModNode 1 (.VarNode 2 "v") (.SizeVarNode 3 "n"))
        (.OrNode 4 (.IntImmNode 5 (-1)) (.VarNode 2 "v")))
      (.AddNode 10 (.FloorModNode 11 (.SizeVarNode 12 "s") (.SizeVarNode 13 "n"))
        (.OrNode 14 (.IntImmNode 15 4) (.SizeVarNode 12 "s")))
      [] [] (by decide) (by decide) (by decide) (by decide)⟩

end NonNegative
